import Mathlib

/-!
# DeFiChain custom-transaction codec (`lib/dfi/customtx.js`)

A shallow embedding of `lib/dfi/customtx.js`: the tag table, the `toBuffer`
and `fromBuffer` functions of the sixteen exported variants, the entry
functions, and the buffer primitives they call; then the properties of the
byte layout that follow from the code.

Conventions of the embedding

* a byte string is a `List Nat`; every writer produces entries below 256;
* a `BufferWriter` is the concatenation of what was written so far;
* a `BufferReader` is its unread suffix `buf.slice(pos)`; a read returns the
  value together with the new unread suffix;
* a call that throws is `none`;
* a JavaScript string is a `String` (a sequence of Unicode scalar values), its
  `.length` counts UTF-16 code units;
* a JavaScript number is a `Nat` where the code treats it as a count or an
  identifier, and an exact rational where the code scales it by `100000000`;
  rounding of IEEE doubles is outside the embedding.
-/

namespace CustomTx

/-- A byte string (`Buffer`). -/
abbrev Bytes := List Nat

/-! ## Node `Buffer` and string primitives -/

/-- Number of UTF-16 code units of one Unicode scalar value. -/
def utf16Units (c : Char) : Nat := if c.toNat < 0x10000 then 1 else 2

/-- JavaScript `s.length`: the number of UTF-16 code units of `s`. -/
def strLength (s : String) : Nat := (s.data.map utf16Units).sum

/-- UTF-8 encoding of one scalar value. -/
def utf8EncodeChar (c : Nat) : Bytes :=
  if c < 0x80 then [c]
  else if c < 0x800 then [0xC0 + c / 64, 0x80 + c % 64]
  else if c < 0x10000 then [0xE0 + c / 4096, 0x80 + c / 64 % 64, 0x80 + c % 64]
  else [0xF0 + c / 262144, 0x80 + c / 4096 % 64, 0x80 + c / 64 % 64, 0x80 + c % 64]

/-- Node `new Buffer(s)` for a string `s`: the UTF-8 bytes of `s`. -/
def newBuffer (s : String) : Bytes := s.data.flatMap (fun c => utf8EncodeChar c.toNat)

/-- State of the UTF-8 decoder: code point so far, continuation bytes needed
and seen, and the admissible range of the next continuation byte. -/
structure Utf8State where
  cp : Nat
  needed : Nat
  seen : Nat
  lower : Nat
  upper : Nat

/-- Decoder state between two characters. -/
def Utf8State.init : Utf8State := ⟨0, 0, 0, 0x80, 0xBF⟩

/-- One byte read while no character is in progress: the scalar value emitted,
if any, and the next state. -/
def utf8Lead (b : Nat) : Option Nat × Utf8State :=
  if b ≤ 0x7F then (some b, Utf8State.init)
  else if 0xC2 ≤ b ∧ b ≤ 0xDF then (none, ⟨b % 32, 1, 0, 0x80, 0xBF⟩)
  else if 0xE0 ≤ b ∧ b ≤ 0xEF then
    (none, ⟨b % 16, 2, 0, if b = 0xE0 then 0xA0 else 0x80, if b = 0xED then 0x9F else 0xBF⟩)
  else if 0xF0 ≤ b ∧ b ≤ 0xF4 then
    (none, ⟨b % 8, 3, 0, if b = 0xF0 then 0x90 else 0x80, if b = 0xF4 then 0x8F else 0xBF⟩)
  else (some 0xFFFD, Utf8State.init)

/-- UTF-8 decoding with U+FFFD replacement of ill-formed sequences. -/
def utf8Decode : Utf8State → Bytes → List Nat
  | st, [] => if st.needed = 0 then [] else [0xFFFD]
  | st, b :: bs =>
    if st.needed = 0 then
      (utf8Lead b).1.toList ++ utf8Decode (utf8Lead b).2 bs
    else if st.lower ≤ b ∧ b ≤ st.upper then
      if st.seen + 1 = st.needed then
        (st.cp * 64 + b % 64) :: utf8Decode Utf8State.init bs
      else
        utf8Decode ⟨st.cp * 64 + b % 64, st.needed, st.seen + 1, 0x80, 0xBF⟩ bs
    else
      0xFFFD :: ((utf8Lead b).1.toList ++ utf8Decode (utf8Lead b).2 bs)

/-- Node `buf.toString()`: UTF-8 decoding of a buffer. -/
def bufToString (bs : Bytes) : String := ⟨(utf8Decode Utf8State.init bs).map Char.ofNat⟩

/-- One lowercase hexadecimal digit. -/
def hexDigit (n : Nat) : Char := if n < 10 then Char.ofNat (48 + n) else Char.ofNat (87 + n)

/-- Node `buf.toString('hex')`: two lowercase hex digits per byte. -/
def bufToHex (bs : Bytes) : String := ⟨bs.flatMap (fun b => [hexDigit (b / 16), hexDigit (b % 16)])⟩

/-- Little-endian bytes of `n` on `w` bytes. -/
def toLE : Nat → Nat → Bytes
  | 0, _ => []
  | w + 1, n => n % 256 :: toLE w (n / 256)

/-- Value of a little-endian byte string. -/
def fromLE : Bytes → Nat
  | [] => 0
  | b :: bs => b + 256 * fromLE bs

/-! ## `BN` (`lib/crypto/bn.js`) -/

/-- Modelled from the spec: `BN.fromNumber` of `lib/crypto/bn.js` (the
big-integer primitives are taken as given there) on a non-negative integer;
the big-integer constructor accepts a number only below `2^53`. -/
def BN.fromNumber (n : Nat) : Option Nat := if n < 2 ^ 53 then some n else none

/-- Modelled from the spec: `BN.fromNumber` of `lib/crypto/bn.js` on a number
that may have a fractional part: the integer part is kept; a negative number
or one from `2^53` on is refused. -/
def BN.fromNumberQ (x : ℚ) : Option Nat :=
  if 0 ≤ x ∧ x < 2 ^ 53 then some (x.num.toNat / x.den) else none

/-- Modelled from the spec: `bn.toNumber()` of `lib/crypto/bn.js`; a number
holds at most 53 bits. -/
def BN.toNumber (n : Nat) : Option Nat := if n < 2 ^ 53 then some n else none

/-! ## `BufferWriter` (`lib/encoding/bufferwriter.js`) -/

/-- Modelled from the spec: `bw.write(buf)` of `lib/encoding/bufferwriter.js`
appends the raw bytes; it never fails. -/
def write (buf : Bytes) (bw : Bytes) : Option Bytes := some (bw ++ buf)

/-- Modelled from the spec: `bw.writeUInt8(n)`, one byte, refused out of range. -/
def writeUInt8 (n : Nat) (bw : Bytes) : Option Bytes :=
  if n < 256 then some (bw ++ [n]) else none

/-- Modelled from the spec: `bw.writeUInt32LE(n)`, four bytes little-endian. -/
def writeUInt32LE (n : Nat) (bw : Bytes) : Option Bytes :=
  if n < 2 ^ 32 then some (bw ++ toLE 4 n) else none

/-- Modelled from the spec: `bw.writeUInt64LEBN(n)`, eight bytes little-endian
of an unsigned 64-bit integer. -/
def writeUInt64LEBN (n : Nat) (bw : Bytes) : Option Bytes :=
  if n < 2 ^ 64 then some (bw ++ toLE 8 n) else none

/-- Modelled from the spec: `bw.writeUInt64LEBN(x)` called with a plain number
`x` (the product `value * 100000000`): `x` has to be an integer of the
unsigned 64-bit range. -/
def writeUInt64LEBNQ (x : ℚ) (bw : Bytes) : Option Bytes :=
  if x.den = 1 ∧ 0 ≤ x.num then writeUInt64LEBN x.num.toNat bw else none

/-- Modelled from the spec: the varint of `lib/encoding/bufferwriter.js`
(`varintBufNum`): one byte below 253, else a marker byte 253, 254 or 255
followed by 2, 4 or 8 little-endian bytes. -/
def varintBufNum (n : Nat) : Option Bytes :=
  if n < 253 then some [n]
  else if n < 0x10000 then some (253 :: toLE 2 n)
  else if n < 0x100000000 then some (254 :: toLE 4 n)
  else if n < 2 ^ 64 then some (255 :: toLE 8 n)
  else none

/-- Modelled from the spec: `bw.writeVarintNum(n)`. -/
def writeVarintNum (n : Nat) (bw : Bytes) : Option Bytes :=
  (varintBufNum n).map (fun v => bw ++ v)

/-! ## `BufferReader` (`lib/encoding/bufferreader.js`) -/

/-- Modelled from the spec: `br.read(len)` of `lib/encoding/bufferreader.js`
reads exactly `len` bytes and fails when fewer remain. -/
def read (len : Nat) (br : Bytes) : Option (Bytes × Bytes) :=
  if len ≤ br.length then some (br.take len, br.drop len) else none

/-- Modelled from the spec: `br.readUInt8()`. -/
def readUInt8 (br : Bytes) : Option (Nat × Bytes) :=
  match br with
  | [] => none
  | b :: rest => some (b, rest)

/-- Modelled from the spec: `br.readUInt16LE()`. -/
def readUInt16LE (br : Bytes) : Option (Nat × Bytes) :=
  (read 2 br).map (fun p => (fromLE p.1, p.2))

/-- Modelled from the spec: `br.readUInt32LE()`. -/
def readUInt32LE (br : Bytes) : Option (Nat × Bytes) :=
  (read 4 br).map (fun p => (fromLE p.1, p.2))

/-- Modelled from the spec: `br.readUInt64LEBN()`, failing when fewer than
eight bytes remain. -/
def readUInt64LEBN (br : Bytes) : Option (Nat × Bytes) :=
  (read 8 br).map (fun p => (fromLE p.1, p.2))

/-- The expression `br.readUInt64LEBN().toNumber()`. -/
def readUInt64LENum (br : Bytes) : Option (Nat × Bytes) :=
  (readUInt64LEBN br).bind (fun p => (BN.toNumber p.1).map (fun n => (n, p.2)))

/-- Modelled from the spec: `br.readVarintNum()`: the first byte, or after a
marker 253, 254, 255 the following 2, 4 or 8 little-endian bytes. -/
def readVarintNum (br : Bytes) : Option (Nat × Bytes) :=
  match br with
  | [] => none
  | first :: rest =>
    if first = 0xFD then readUInt16LE rest
    else if first = 0xFE then readUInt32LE rest
    else if first = 0xFF then readUInt64LENum rest
    else some (first, rest)

/-! ## The tag table and the signature -/

/-- The object `customTxType`: property name and one-character tag. -/
def customTxType : List (String × String) :=
  [ ("createMasternode", "C"),
    ("resignMasternode", "R"),
    ("createToken", "T"),
    ("mintToken", "M"),
    ("updateToken", "N"),
    ("updateTokenAny", "n"),
    ("createPoolPair", "p"),
    ("updatePoolPair", "u"),
    ("poolSwap", "s"),
    ("addPoolLiquidity", "l"),
    ("removePoolLiquidity", "r"),
    ("utxosToAccount", "U"),
    ("accountToUtxos", "b"),
    ("accountToAccount", "B"),
    ("setGovVariable", "G"),
    ("anyAccountsToAccounts", "a") ]

/-- The constant `CUSTOM_SIGNATURE`. -/
def CUSTOM_SIGNATURE : String := "DfTx"

/-- The statements every `toBuffer` starts with, for the property `k` of
`customTxType`: `var bw = new BufferWriter(); bw.write(new Buffer(CUSTOM_SIGNATURE));
bw.write(new Buffer(customTxType.k));`. A property missing from the table
makes `new Buffer` throw. -/
def writeHeader (k : String) : Option Bytes := do
  let bw : Bytes := []
  let bw ← write (newBuffer CUSTOM_SIGNATURE) bw
  let tag ← customTxType.lookup k
  let bw ← write (newBuffer tag) bw
  pure bw

/-! ## CreateToken -/

/-- Fields of a CreateToken record. -/
structure CreateTokenData where
  symbol : String
  name : String
  decimal : Nat
  limit : Nat
  flags : Nat
deriving DecidableEq, Repr

/-- `CreateToken.fromBuffer` (lines 101-111). -/
def CreateToken.fromBuffer (br : Bytes) : Option (CreateTokenData × Bytes) := do
  let (lenSymbol, br) ← readVarintNum br
  let (symbol, br) ← read lenSymbol br
  let (lenName, br) ← readVarintNum br
  let (name, br) ← read lenName br
  let (decimal, br) ← readUInt8 br
  let (limit, br) ← readUInt64LENum br
  let (flags, br) ← readUInt8 br
  pure (⟨bufToString symbol, bufToString name, decimal, limit, flags⟩, br)

/-- `CreateToken.toBuffer` (lines 113-126). -/
def CreateToken.toBuffer (data : CreateTokenData) : Option Bytes := do
  let bw ← writeHeader "createToken"
  let bw ← writeVarintNum (strLength data.symbol) bw
  let bw ← write (newBuffer data.symbol) bw
  let bw ← writeVarintNum (strLength data.name) bw
  let bw ← write (newBuffer data.name) bw
  let decimal ← BN.fromNumber data.decimal
  let bw ← writeUInt8 decimal bw
  let limit ← BN.fromNumber data.limit
  let bw ← writeUInt64LEBN limit bw
  let bw ← writeUInt8 data.flags bw
  pure bw

/-! ## The sub-codecs of `./deserialiizeTypes` -/

/-- Modelled from the spec: the sub-codecs `CScript`, `CBalances` and
`CAccounts` of `lib/dfi/deserialiizeTypes.js`. Called with a value and a
writer, a sub-codec appends the value's bytes to the writer and returns the
writer; called on a reader, it consumes bytes from the cursor and returns the
value. The script decoder also takes the network, which is `none` when the
caller passes none; the script encoder may be handed `undefined` (`none`). -/
structure SubCodecs (S B A N : Type) where
  scriptBytes : Option S → Option Bytes
  scriptFromBuffer : Bytes → Option N → Option (S × Bytes)
  balancesBytes : B → Option Bytes
  balancesFromBuffer : Bytes → Option (B × Bytes)
  accountsBytes : A → Option Bytes
  accountsFromBuffer : Bytes → Option N → Option (A × Bytes)

section Variants

variable {S B A N : Type}

/-- The call `bw = new CScript(arg, bw)`. -/
def writeCScript (c : SubCodecs S B A N) (arg : Option S) (bw : Bytes) : Option Bytes :=
  (c.scriptBytes arg).map (fun x => bw ++ x)

/-- The call `bw = new CBalances(arg, bw)`. -/
def writeCBalances (c : SubCodecs S B A N) (arg : B) (bw : Bytes) : Option Bytes :=
  (c.balancesBytes arg).map (fun x => bw ++ x)

/-- The call `bw = new CAccounts(arg, bw)`. -/
def writeCAccounts (c : SubCodecs S B A N) (arg : A) (bw : Bytes) : Option Bytes :=
  (c.accountsBytes arg).map (fun x => bw ++ x)

/-- The loop `for (var entry of m) { bw = new CScript(entry[0], bw);
bw = new CBalances(entry[1], bw); }`. -/
def writeEntries (c : SubCodecs S B A N) : List (S × B) → Bytes → Option Bytes
  | [], bw => some bw
  | entry :: es, bw => do
    let bw ← writeCScript c (some entry.1) bw
    let bw ← writeCBalances c entry.2 bw
    writeEntries c es bw

/-! ## CreateMasternode -/

/-- Fields of a CreateMasternode record. -/
structure CreateMasternodeData where
  operatorType : Nat
  operatorAuthAddress : String
deriving DecidableEq, Repr

/-- `CreateMasternode.fromBuffer` (lines 45-50). -/
def CreateMasternode.fromBuffer (buffer : Bytes) : Option (CreateMasternodeData × Bytes) := do
  let (operatorType, buffer) ← readUInt8 buffer
  let (operatorAuthAddress, buffer) ← read 20 buffer
  pure (⟨operatorType, bufToHex operatorAuthAddress⟩, buffer)

/-- `CreateMasternode.toBuffer` (lines 52-60). -/
def CreateMasternode.toBuffer (data : CreateMasternodeData) : Option Bytes := do
  let bw ← writeHeader "createMasternode"
  let bw ← writeUInt8 data.operatorType bw
  let bw ← write (newBuffer data.operatorAuthAddress) bw
  pure bw

/-! ## ResignMasternode -/

/-- Fields of a ResignMasternode record. -/
structure ResignMasternodeData where
  nodeId : String
deriving DecidableEq, Repr

/-- `ResignMasternode.fromBuffer` (lines 74-78). -/
def ResignMasternode.fromBuffer (br : Bytes) : Option (ResignMasternodeData × Bytes) := do
  let (nodeId, br) ← read 32 br
  pure (⟨bufToHex nodeId⟩, br)

/-- `ResignMasternode.toBuffer` (lines 80-87). -/
def ResignMasternode.toBuffer (data : ResignMasternodeData) : Option Bytes := do
  let bw ← writeHeader "resignMasternode"
  let bw ← write (newBuffer data.nodeId) bw
  pure bw

/-! ## MintToken -/

/-- Fields of a MintToken record. -/
structure MintTokenData (B : Type) where
  minted : B
deriving DecidableEq

/-- `MintToken.fromBuffer` (lines 140-144). -/
def MintToken.fromBuffer (c : SubCodecs S B A N) (br : Bytes) : Option (MintTokenData B × Bytes) := do
  let (minted, br) ← c.balancesFromBuffer br
  pure (⟨minted⟩, br)

/-- `MintToken.toBuffer` (lines 146-153). -/
def MintToken.toBuffer (c : SubCodecs S B A N) (data : MintTokenData B) : Option Bytes := do
  let bw ← writeHeader "mintToken"
  let bw ← writeCBalances c data.minted bw
  pure bw

/-! ## UpdateToken -/

/-- Fields of an UpdateToken record. -/
structure UpdateTokenData where
  tokenTx : String
  isDAT : Nat
deriving DecidableEq, Repr

/-- `UpdateToken.fromBuffer` (lines 167-172). -/
def UpdateToken.fromBuffer (br : Bytes) : Option (UpdateTokenData × Bytes) := do
  let (tokenTx, br) ← read 32 br
  let (isDAT, br) ← readUInt8 br
  pure (⟨bufToHex tokenTx, isDAT⟩, br)

/-- `UpdateToken.toBuffer` (lines 174-182). -/
def UpdateToken.toBuffer (data : UpdateTokenData) : Option Bytes := do
  let bw ← writeHeader "updateToken"
  let bw ← write (newBuffer data.tokenTx) bw
  let bw ← writeUInt8 data.isDAT bw
  pure bw

/-! ## UpdateTokenAny -/

/-- Fields `UpdateTokenAny.toBuffer` reads from its argument. -/
structure UpdateTokenAnyData where
  tokenTx : String
  symbol : String
  name : String
  decimal : Nat
  limit : Nat
  mintable : Nat
  tradeable : Nat
  isDAT : Nat
deriving DecidableEq, Repr

/-- The object `newToken` built by `UpdateTokenAny.fromBuffer`. -/
structure NewToken where
  symbol : String
  name : String
  decimal : Nat
  limit : Nat
  flags : Nat
deriving DecidableEq, Repr

/-- The record `UpdateTokenAny.fromBuffer` returns. -/
structure UpdateTokenAnyDecoded where
  tokenTx : String
  newToken : NewToken
deriving DecidableEq, Repr

/-- `UpdateTokenAny.fromBuffer` (lines 196-211). -/
def UpdateTokenAny.fromBuffer (br : Bytes) : Option (UpdateTokenAnyDecoded × Bytes) := do
  let (tokenTx, br) ← read 32 br
  let (len, br) ← readUInt8 br
  let (symbol, br) ← read len br
  let (len, br) ← readUInt8 br
  let (name, br) ← read len br
  let (decimal, br) ← readUInt8 br
  let (limit, br) ← readUInt64LENum br
  let (flags, br) ← readUInt8 br
  pure (⟨bufToHex tokenTx, ⟨bufToString symbol, bufToString name, decimal, limit, flags⟩⟩, br)

/-- `UpdateTokenAny.toBuffer` (lines 213-229). -/
def UpdateTokenAny.toBuffer (data : UpdateTokenAnyData) : Option Bytes := do
  let bw ← writeHeader "updateTokenAny"
  let bw ← write (newBuffer data.tokenTx) bw
  let bw ← writeVarintNum (strLength data.symbol) bw
  let bw ← write (newBuffer data.symbol) bw
  let bw ← writeVarintNum (strLength data.name) bw
  let bw ← write (newBuffer data.name) bw
  let bw ← writeUInt8 data.decimal bw
  let limit ← BN.fromNumber data.limit
  let bw ← writeUInt64LEBN limit bw
  let bw ← writeUInt8 data.mintable bw
  let bw ← writeUInt8 data.tradeable bw
  let bw ← writeUInt8 data.isDAT bw
  pure bw

/-! ## CreatePoolPair -/

/-- Fields of a CreatePoolPair record. -/
structure CreatePoolPairData (S : Type) where
  idTokenA : Nat
  idTokenB : Nat
  commission : ℚ
  ownerAddress : S
  status : Nat
deriving DecidableEq

/-- `CreatePoolPair.fromBuffer` (lines 243-251). -/
def CreatePoolPair.fromBuffer (c : SubCodecs S B A N) (br : Bytes) (network : Option N) :
    Option (CreatePoolPairData S × Bytes) := do
  let (idTokenA, br) ← readVarintNum br
  let (idTokenB, br) ← readVarintNum br
  let (commission, br) ← readUInt64LENum br
  let (ownerAddress, br) ← c.scriptFromBuffer br network
  let (status, br) ← readUInt8 br
  pure (⟨idTokenA, idTokenB, (commission : ℚ) / 100000000, ownerAddress, status⟩, br)

/-- `CreatePoolPair.toBuffer` (lines 253-264). -/
def CreatePoolPair.toBuffer (c : SubCodecs S B A N) (data : CreatePoolPairData S) :
    Option Bytes := do
  let bw ← writeHeader "createPoolPair"
  let bw ← writeVarintNum data.idTokenA bw
  let bw ← writeVarintNum data.idTokenB bw
  let bw ← writeUInt64LEBNQ (data.commission * 100000000) bw
  let bw ← writeCScript c (some data.ownerAddress) bw
  let bw ← writeUInt8 data.status bw
  pure bw

/-! ## UpdatePoolPair -/

/-- Fields `UpdatePoolPair.toBuffer` reads from its argument. -/
structure UpdatePoolPairData (S : Type) where
  pollId : Nat
  status : Nat
  commission : Nat
  ownerAddress : S
deriving DecidableEq

/-- `UpdatePoolPair.toBuffer` (lines 287-297). -/
def UpdatePoolPair.toBuffer (c : SubCodecs S B A N) (data : UpdatePoolPairData S) :
    Option Bytes := do
  let bw ← writeHeader "updatePoolPair"
  let bw ← writeUInt32LE data.pollId bw
  let bw ← writeUInt8 data.status bw
  let commission ← BN.fromNumber data.commission
  let bw ← writeUInt64LEBN commission bw
  let bw ← writeCScript c (some data.ownerAddress) bw
  pure bw

/-! ## PoolSwap -/

/-- The object `maxPrice` of a PoolSwap record. -/
structure MaxPrice where
  integer : ℚ
  fraction : ℚ
deriving DecidableEq

/-- Fields of a PoolSwap record. -/
structure PoolSwapData (S : Type) where
  from_ : S
  idTokenFrom : Nat
  amountFrom : ℚ
  to_ : S
  idTokenTo : Nat
  maxPrice : MaxPrice
deriving DecidableEq

/-- `PoolSwap.fromBuffer` (lines 311-323); the first script is decoded by
`CScript.fromBuffer(br)`, without the network. -/
def PoolSwap.fromBuffer (c : SubCodecs S B A N) (br : Bytes) (network : Option N) :
    Option (PoolSwapData S × Bytes) := do
  let (from_, br) ← c.scriptFromBuffer br none
  let (idTokenFrom, br) ← readVarintNum br
  let (amountFrom, br) ← readUInt64LENum br
  let (to_, br) ← c.scriptFromBuffer br network
  let (idTokenTo, br) ← readVarintNum br
  let (integer, br) ← readUInt64LENum br
  let (fraction, br) ← readUInt64LENum br
  pure (⟨from_, idTokenFrom, (amountFrom : ℚ) / 100000000, to_, idTokenTo,
    ⟨(integer : ℚ) / 100000000, (fraction : ℚ) / 100000000⟩⟩, br)

/-- `PoolSwap.toBuffer` (lines 325-338). -/
def PoolSwap.toBuffer (c : SubCodecs S B A N) (data : PoolSwapData S) : Option Bytes := do
  let bw ← writeHeader "poolSwap"
  let bw ← writeCScript c (some data.from_) bw
  let bw ← writeUInt32LE data.idTokenFrom bw
  let amountFrom ← BN.fromNumberQ data.amountFrom
  let bw ← writeUInt64LEBN amountFrom bw
  let bw ← writeCScript c (some data.to_) bw
  let bw ← writeUInt32LE data.idTokenTo bw
  let bw ← writeUInt64LEBNQ (data.maxPrice.integer * 100000000) bw
  let bw ← writeUInt64LEBNQ (data.maxPrice.fraction * 100000000) bw
  pure bw

/-! ## AddPoolLiquidity -/

/-- Fields `AddPoolLiquidity.toBuffer` reads from its argument; `from_` is the
collection iterated by `for (var entry of data.from)`, of size `data.from.size()`. -/
structure AddPoolLiquidityData (S B : Type) where
  from_ : List (S × B)
  shareAddress : S
deriving DecidableEq

/-- `AddPoolLiquidity.toBuffer` (lines 364-377). -/
def AddPoolLiquidity.toBuffer (c : SubCodecs S B A N) (data : AddPoolLiquidityData S B) :
    Option Bytes := do
  let bw ← writeHeader "addPoolLiquidity"
  let size := data.from_.length
  let bw ← writeVarintNum size bw
  let bw ← writeEntries c data.from_ bw
  let bw ← writeCScript c (some data.shareAddress) bw
  pure bw

/-! ## RemovePoolLiquidity -/

/-- Fields of a RemovePoolLiquidity record, and the property `form` that
`RemovePoolLiquidity.toBuffer` reads (`undefined`, that is `none`, on a record
that has only the three fields `from`, `nTokenId`, `nValue`). -/
structure RemovePoolLiquidityData (S : Type) where
  from_ : S
  nTokenId : Nat
  nValue : ℚ
  form : Option S
deriving DecidableEq

/-- `RemovePoolLiquidity.fromBuffer` (lines 391-397). -/
def RemovePoolLiquidity.fromBuffer (c : SubCodecs S B A N) (br : Bytes) (network : Option N) :
    Option (RemovePoolLiquidityData S × Bytes) := do
  let (from_, br) ← c.scriptFromBuffer br network
  let (nTokenId, br) ← readVarintNum br
  let (nValue, br) ← readUInt64LENum br
  pure (⟨from_, nTokenId, (nValue : ℚ) / 100000000, none⟩, br)

/-- `RemovePoolLiquidity.toBuffer` (lines 399-408); line 404 passes
`data.form` to `CScript`. -/
def RemovePoolLiquidity.toBuffer (c : SubCodecs S B A N) (data : RemovePoolLiquidityData S) :
    Option Bytes := do
  let bw ← writeHeader "removePoolLiquidity"
  let bw ← writeCScript c data.form bw
  let bw ← writeVarintNum data.nTokenId bw
  let bw ← writeUInt64LEBNQ (data.nValue * 100000000) bw
  pure bw

/-! ## SetGovVariable -/

/-- Fields of a SetGovVariable record. -/
structure SetGovVariableData where
  name : String
deriving DecidableEq, Repr

/-- `SetGovVariable.fromBuffer` (lines 422-427). -/
def SetGovVariable.fromBuffer (br : Bytes) : Option (SetGovVariableData × Bytes) := do
  let (len, br) ← readVarintNum br
  let (name, br) ← read len br
  pure (⟨bufToString name⟩, br)

/-- `SetGovVariable.toBuffer` (lines 429-437). -/
def SetGovVariable.toBuffer (data : SetGovVariableData) : Option Bytes := do
  let bw ← writeHeader "setGovVariable"
  let bw ← writeVarintNum (strLength data.name) bw
  let bw ← write (newBuffer data.name) bw
  pure bw

/-! ## UtxosToAccount -/

/-- Fields `UtxosToAccount.toBuffer` reads from its argument. -/
structure UtxosToAccountData (S B : Type) where
  to_ : List (S × B)
deriving DecidableEq

/-- `UtxosToAccount.toBuffer` (lines 462-474). -/
def UtxosToAccount.toBuffer (c : SubCodecs S B A N) (data : UtxosToAccountData S B) :
    Option Bytes := do
  let size := data.to_.length
  let bw ← writeHeader "utxosToAccount"
  let bw ← writeVarintNum size bw
  let bw ← writeEntries c data.to_ bw
  pure bw

/-! ## AccountToUtxos -/

/-- Fields of an AccountToUtxos record. -/
structure AccountToUtxosData (S B : Type) where
  from_ : S
  balances : B
  mintingOutputsStart : Nat
deriving DecidableEq

/-- `AccountToUtxos.fromBuffer` (lines 488-494). -/
def AccountToUtxos.fromBuffer (c : SubCodecs S B A N) (br : Bytes) (network : Option N) :
    Option (AccountToUtxosData S B × Bytes) := do
  let (from_, br) ← c.scriptFromBuffer br network
  let (balances, br) ← c.balancesFromBuffer br
  let (mintingOutputsStart, br) ← readVarintNum br
  pure (⟨from_, balances, mintingOutputsStart⟩, br)

/-- `AccountToUtxos.toBuffer` (lines 496-505). -/
def AccountToUtxos.toBuffer (c : SubCodecs S B A N) (data : AccountToUtxosData S B) :
    Option Bytes := do
  let bw ← writeHeader "accountToUtxos"
  let bw ← writeCScript c (some data.from_) bw
  let bw ← writeCBalances c data.balances bw
  let bw ← writeUInt32LE data.mintingOutputsStart bw
  pure bw

/-! ## AccountToAccount -/

/-- Fields `AccountToAccount.toBuffer` reads from its argument. -/
structure AccountToAccountData (S B : Type) where
  from_ : S
  to_ : List (S × B)
deriving DecidableEq

/-- `AccountToAccount.toBuffer` (lines 531-544). -/
def AccountToAccount.toBuffer (c : SubCodecs S B A N) (data : AccountToAccountData S B) :
    Option Bytes := do
  let bw ← writeHeader "accountToAccount"
  let bw ← writeCScript c (some data.from_) bw
  let size := data.to_.length
  let bw ← writeVarintNum size bw
  let bw ← writeEntries c data.to_ bw
  pure bw

/-! ## AnyAccountsToAccounts -/

/-- Fields of an AnyAccountsToAccounts record. -/
structure AnyAccountsToAccountsData (A : Type) where
  from_ : A
  to_ : A
deriving DecidableEq

/-- `AnyAccountsToAccounts.fromBuffer` (lines 558-563). -/
def AnyAccountsToAccounts.fromBuffer (c : SubCodecs S B A N) (br : Bytes) (network : Option N) :
    Option (AnyAccountsToAccountsData A × Bytes) := do
  let (from_, br) ← c.accountsFromBuffer br network
  let (to_, br) ← c.accountsFromBuffer br network
  pure (⟨from_, to_⟩, br)

/-- `AnyAccountsToAccounts.toBuffer` (lines 565-573). -/
def AnyAccountsToAccounts.toBuffer (c : SubCodecs S B A N) (data : AnyAccountsToAccountsData A) :
    Option Bytes := do
  let bw ← writeHeader "anyAccountsToAccounts"
  let bw ← writeCAccounts c data.from_ bw
  let bw ← writeCAccounts c data.to_ bw
  pure bw

/-! ## The exported variants -/

/-- An input record of one of the sixteen exported variants (`module.exports`,
lines 575-593). -/
inductive Record (S B A : Type) where
  | CreateMasternode (data : CreateMasternodeData)
  | ResignMasternode (data : ResignMasternodeData)
  | CreateToken (data : CreateTokenData)
  | MintToken (data : MintTokenData B)
  | UpdateToken (data : UpdateTokenData)
  | UpdateTokenAny (data : UpdateTokenAnyData)
  | CreatePoolPair (data : CreatePoolPairData S)
  | UpdatePoolPair (data : UpdatePoolPairData S)
  | PoolSwap (data : PoolSwapData S)
  | AddPoolLiquidity (data : AddPoolLiquidityData S B)
  | RemovePoolLiquidity (data : RemovePoolLiquidityData S)
  | UtxosToAccount (data : UtxosToAccountData S B)
  | AccountToUtxos (data : AccountToUtxosData S B)
  | AccountToAccount (data : AccountToAccountData S B)
  | SetGovVariable (data : SetGovVariableData)
  | AnyAccountsToAccounts (data : AnyAccountsToAccountsData A)

/-- The property of `customTxType` named after the variant. -/
def Record.typeName : Record S B A → String
  | .CreateMasternode _ => "createMasternode"
  | .ResignMasternode _ => "resignMasternode"
  | .CreateToken _ => "createToken"
  | .MintToken _ => "mintToken"
  | .UpdateToken _ => "updateToken"
  | .UpdateTokenAny _ => "updateTokenAny"
  | .CreatePoolPair _ => "createPoolPair"
  | .UpdatePoolPair _ => "updatePoolPair"
  | .PoolSwap _ => "poolSwap"
  | .AddPoolLiquidity _ => "addPoolLiquidity"
  | .RemovePoolLiquidity _ => "removePoolLiquidity"
  | .UtxosToAccount _ => "utxosToAccount"
  | .AccountToUtxos _ => "accountToUtxos"
  | .AccountToAccount _ => "accountToAccount"
  | .SetGovVariable _ => "setGovVariable"
  | .AnyAccountsToAccounts _ => "anyAccountsToAccounts"

/-- The variant's own `toBuffer` applied to the record. -/
def Record.toBuffer (c : SubCodecs S B A N) : Record S B A → Option Bytes
  | .CreateMasternode data => CustomTx.CreateMasternode.toBuffer data
  | .ResignMasternode data => CustomTx.ResignMasternode.toBuffer data
  | .CreateToken data => CustomTx.CreateToken.toBuffer data
  | .MintToken data => CustomTx.MintToken.toBuffer c data
  | .UpdateToken data => CustomTx.UpdateToken.toBuffer data
  | .UpdateTokenAny data => CustomTx.UpdateTokenAny.toBuffer data
  | .CreatePoolPair data => CustomTx.CreatePoolPair.toBuffer c data
  | .UpdatePoolPair data => CustomTx.UpdatePoolPair.toBuffer c data
  | .PoolSwap data => CustomTx.PoolSwap.toBuffer c data
  | .AddPoolLiquidity data => CustomTx.AddPoolLiquidity.toBuffer c data
  | .RemovePoolLiquidity data => CustomTx.RemovePoolLiquidity.toBuffer c data
  | .UtxosToAccount data => CustomTx.UtxosToAccount.toBuffer c data
  | .AccountToUtxos data => CustomTx.AccountToUtxos.toBuffer c data
  | .AccountToAccount data => CustomTx.AccountToAccount.toBuffer c data
  | .SetGovVariable data => CustomTx.SetGovVariable.toBuffer data
  | .AnyAccountsToAccounts data => CustomTx.AnyAccountsToAccounts.toBuffer c data

end Variants

/-! ## A small instance of the sub-codecs -/

/-- Modelled from the spec: a `ScriptRef` as an opaque byte string framed by a
varint length; balances and account maps as plain byte strings framed the same
way; the network is not consulted. -/
def lpCodecs : SubCodecs Bytes Bytes Bytes Unit where
  scriptBytes := fun arg =>
    match arg with
    | none => none
    | some s => (varintBufNum s.length).map (fun v => v ++ s)
  scriptFromBuffer := fun br _ => do
    let (len, br) ← readVarintNum br
    read len br
  balancesBytes := fun b => (varintBufNum b.length).map (fun v => v ++ b)
  balancesFromBuffer := fun br => do
    let (len, br) ← readVarintNum br
    read len br
  accountsBytes := fun a => (varintBufNum a.length).map (fun v => v ++ a)
  accountsFromBuffer := fun br _ => do
    let (len, br) ← readVarintNum br
    read len br

/-! ## JavaScript objects used as maps, and the decoders that fill them -/

/-- The array index a property key denotes, if it is one: a canonical decimal
numeral (no leading zero) below `2^32 - 1`. -/
def arrayIndex (k : String) : Option Nat :=
  match k.data with
  | [] => none
  | c :: cs =>
    if (c :: cs).all Char.isDigit = true ∧ (c ≠ '0' ∨ cs = []) then
      if (c :: cs).foldl (fun a d => 10 * a + (d.toNat - 48)) 0 < 2 ^ 32 - 1 then
        some ((c :: cs).foldl (fun a d => 10 * a + (d.toNat - 48)) 0)
      else none
    else none

/-- A plain JavaScript object (`{}`) whose values have type `V`: its own
properties in enumeration order (array indices in ascending order first, then
the other keys in insertion order). -/
abbrev JSObject (V : Type) := List (String × V)

/-- The assignment `o[k] = v`: an existing property keeps its place and takes
the new value; a new array index is put in numeric order among the indices; any
other new key goes last. -/
def JSObject.put {V : Type} (o : JSObject V) (k : String) (v : V) : JSObject V :=
  if o.any (fun p => p.1 == k) then
    o.map (fun p => if p.1 = k then (p.1, v) else p)
  else
    match arrayIndex k with
    | none => o ++ [(k, v)]
    | some n =>
      o.takeWhile (fun p => (arrayIndex p.1).any (fun m => m < n)) ++
        (k, v) :: o.dropWhile (fun p => (arrayIndex p.1).any (fun m => m < n))

/-- JavaScript `n.toString()` for a non-negative integer `n`: its decimal digits. -/
def numberToString (n : Nat) : String := Nat.repr n

section Decoders

variable {S B A N : Type}

/-- The loop `for (var i = 0; i < count; i++) { o[CScript.fromBuffer(br, network)]
= new CBalances(br); }` started with the object `o`; `key` is the property key
JavaScript makes of the decoded script (`String(script)`). -/
def readEntries (c : SubCodecs S B A N) (key : S → String) (network : Option N) :
    Nat → Bytes → JSObject B → Option (JSObject B × Bytes)
  | 0, br, o => some (o, br)
  | count + 1, br, o => do
    let (script, br) ← c.scriptFromBuffer br network
    let (balances, br) ← c.balancesFromBuffer br
    readEntries c key network count br (JSObject.put o (key script) balances)

/-- The record `UtxosToAccount.fromBuffer` returns. -/
structure UtxosToAccountDecoded (B : Type) where
  to_ : JSObject B
deriving DecidableEq

/-- `UtxosToAccount.fromBuffer` (lines 451-460). -/
def UtxosToAccount.fromBuffer (c : SubCodecs S B A N) (key : S → String) (br : Bytes)
    (network : Option N) : Option (UtxosToAccountDecoded B × Bytes) := do
  let to_ : JSObject B := []
  let (count, br) ← readVarintNum br
  let (to_, br) ← readEntries c key network count br to_
  pure (⟨to_⟩, br)

/-- The record `AccountToAccount.fromBuffer` returns. -/
structure AccountToAccountDecoded (S B : Type) where
  from_ : S
  to_ : JSObject B
deriving DecidableEq

/-- `AccountToAccount.fromBuffer` (lines 519-529). -/
def AccountToAccount.fromBuffer (c : SubCodecs S B A N) (key : S → String) (br : Bytes)
    (network : Option N) : Option (AccountToAccountDecoded S B × Bytes) := do
  let (from_, br) ← c.scriptFromBuffer br network
  let to_ : JSObject B := []
  let (count, br) ← readVarintNum br
  let (to_, br) ← readEntries c key network count br to_
  pure (⟨from_, to_⟩, br)

/-- The record `AddPoolLiquidity.fromBuffer` returns. -/
structure AddPoolLiquidityDecoded (S B : Type) where
  from_ : JSObject B
  shareAddress : S
deriving DecidableEq

/-- `AddPoolLiquidity.fromBuffer` (lines 352-362); the loop calls
`CScript.fromBuffer(br)`, without the network. -/
def AddPoolLiquidity.fromBuffer (c : SubCodecs S B A N) (key : S → String) (br : Bytes)
    (network : Option N) : Option (AddPoolLiquidityDecoded S B × Bytes) := do
  let from_ : JSObject B := []
  let (count, br) ← readVarintNum br
  let (from_, br) ← readEntries c key none count br from_
  let (shareAddress, br) ← c.scriptFromBuffer br network
  pure (⟨from_, shareAddress⟩, br)

/-- The record `UpdatePoolPair.fromBuffer` returns; `pollId` is a string. -/
structure UpdatePoolPairDecoded (S : Type) where
  pollId : String
  status : Nat
  commission : Nat
  ownerAddress : S
deriving DecidableEq

/-- `UpdatePoolPair.fromBuffer` (lines 278-285). -/
def UpdatePoolPair.fromBuffer (c : SubCodecs S B A N) (br : Bytes) (network : Option N) :
    Option (UpdatePoolPairDecoded S × Bytes) := do
  let (pollId, br) ← readUInt32LE br
  let (status, br) ← readUInt8 br
  let (commission, br) ← readUInt64LENum br
  let (ownerAddress, br) ← c.scriptFromBuffer br network
  pure (⟨numberToString pollId, status, commission, ownerAddress⟩, br)

end Decoders

/-! ## The entry functions -/

/-- The argument `arg` of an entry function: a `BufferReader` (then `arg.buf`
is a Buffer) or a record object. -/
inductive Arg (D : Type) where
  | reader (br : Bytes)
  | object (data : D)
deriving DecidableEq

/-- What an entry function returns: the decoded record, with the position the
reader is left at, or the encoding of the record. -/
inductive Outcome (R : Type) where
  | decoded (data : R) (br : Bytes)
  | encoded (buf : Bytes)
deriving DecidableEq

section Entry

variable {S B A N : Type}

/-- The expression `new CreatePoolPair(arg, network)` (lines 231-241, with
`this instanceof CreatePoolPair`). -/
def CreatePoolPair.construct (c : SubCodecs S B A N) (arg : Arg (CreatePoolPairData S))
    (network : Option N) : Option (Outcome (CreatePoolPairData S)) :=
  match arg with
  | .reader br => (CreatePoolPair.fromBuffer c br network).map (fun p => .decoded p.1 p.2)
  | .object data => (CreatePoolPair.toBuffer c data).map .encoded

/-- The plain call `CreatePoolPair(arg, network)`: line 233 is
`return new CreatePoolPair(arg);`. -/
def CreatePoolPair.call (c : SubCodecs S B A N) (arg : Arg (CreatePoolPairData S))
    (_network : Option N) : Option (Outcome (CreatePoolPairData S)) :=
  CreatePoolPair.construct c arg none

/-- The expression `new AccountToUtxos(arg, network)` (lines 476-486). -/
def AccountToUtxos.construct (c : SubCodecs S B A N) (arg : Arg (AccountToUtxosData S B))
    (network : Option N) : Option (Outcome (AccountToUtxosData S B)) :=
  match arg with
  | .reader br => (AccountToUtxos.fromBuffer c br network).map (fun p => .decoded p.1 p.2)
  | .object data => (AccountToUtxos.toBuffer c data).map .encoded

/-- The plain call `AccountToUtxos(arg, network)`: line 478 is
`return new AccountToUtxos(arg);`. -/
def AccountToUtxos.call (c : SubCodecs S B A N) (arg : Arg (AccountToUtxosData S B))
    (_network : Option N) : Option (Outcome (AccountToUtxosData S B)) :=
  AccountToUtxos.construct c arg none

/-- The expression `new AnyAccountsToAccounts(arg, network)` (lines 546-556). -/
def AnyAccountsToAccounts.construct (c : SubCodecs S B A N)
    (arg : Arg (AnyAccountsToAccountsData A)) (network : Option N) :
    Option (Outcome (AnyAccountsToAccountsData A)) :=
  match arg with
  | .reader br => (AnyAccountsToAccounts.fromBuffer c br network).map (fun p => .decoded p.1 p.2)
  | .object data => (AnyAccountsToAccounts.toBuffer c data).map .encoded

/-- The plain call `AnyAccountsToAccounts(arg, network)`: line 548 is
`return new AnyAccountsToAccounts(arg);`. -/
def AnyAccountsToAccounts.call (c : SubCodecs S B A N)
    (arg : Arg (AnyAccountsToAccountsData A)) (_network : Option N) :
    Option (Outcome (AnyAccountsToAccountsData A)) :=
  AnyAccountsToAccounts.construct c arg none

end Entry

/-- The property names of `module.exports` (lines 575-593). -/
def moduleExports : List String :=
  [ "customTxType",
    "CreateMasternode",
    "ResignMasternode",
    "CreateToken",
    "MintToken",
    "UpdateToken",
    "UpdateTokenAny",
    "CreatePoolPair",
    "UpdatePoolPair",
    "PoolSwap",
    "AddPoolLiquidity",
    "RemovePoolLiquidity",
    "UtxosToAccount",
    "AccountToUtxos",
    "AccountToAccount",
    "SetGovVariable",
    "AnyAccountsToAccounts" ]

/-- The exported codecs: every export but the tag table. -/
def exportedCodecs : List String := moduleExports.filter (fun name => name != "customTxType")

/-- A JavaScript value that is a number or a string. -/
inductive JSValue where
  | number (n : Nat)
  | string (s : String)
deriving DecidableEq

/-! ## A script model that depends on the network -/

/-- Modelled from the spec: a script model in the sense of
`scriptFromBytes(bytes, network)`: the decoded script is the raw bytes together
with the network they were interpreted under (`none` when no network was
passed); on the wire a script, a balance list and an account map are byte
strings framed by a varint length. -/
def netCodecs : SubCodecs (Bytes × Option Nat) Bytes (Bytes × Option Nat) Nat where
  scriptBytes := fun arg =>
    match arg with
    | none => none
    | some s => (varintBufNum s.1.length).map (fun v => v ++ s.1)
  scriptFromBuffer := fun br network => do
    let (len, br) ← readVarintNum br
    let (raw, br) ← read len br
    pure ((raw, network), br)
  balancesBytes := fun b => (varintBufNum b.length).map (fun v => v ++ b)
  balancesFromBuffer := fun br => do
    let (len, br) ← readVarintNum br
    read len br
  accountsBytes := fun a => (varintBufNum a.1.length).map (fun v => v ++ a.1)
  accountsFromBuffer := fun br network => do
    let (len, br) ← readVarintNum br
    let (raw, br) ← read len br
    pure ((raw, network), br)

/-- The property key of a script of `netCodecs`: the hex digits of the raw
bytes, followed by `@` and the network when there is one. -/
def netKey (s : Bytes × Option Nat) : String :=
  match s.2 with
  | none => bufToHex s.1
  | some n => bufToHex s.1 ++ "@" ++ numberToString n

/-! ## Records with absent fields -/

section Absent

variable {S B A N : Type}

end Absent

/-! ## The decoders, by variant -/

/-- The sixteen exported variants. -/
inductive Variant where
  | CreateMasternode
  | ResignMasternode
  | CreateToken
  | MintToken
  | UpdateToken
  | UpdateTokenAny
  | CreatePoolPair
  | UpdatePoolPair
  | PoolSwap
  | AddPoolLiquidity
  | RemovePoolLiquidity
  | UtxosToAccount
  | AccountToUtxos
  | AccountToAccount
  | SetGovVariable
  | AnyAccountsToAccounts
deriving DecidableEq

section

variable {S B A N : Type}

/-- The unread bytes the variant's `fromBuffer` leaves in the reader, `none`
when `fromBuffer` throws. -/
def Variant.fromBufferRest (c : SubCodecs S B A N) (key : S → String) (network : Option N) :
    Variant → Bytes → Option Bytes
  | .CreateMasternode, br => (CustomTx.CreateMasternode.fromBuffer br).map Prod.snd
  | .ResignMasternode, br => (CustomTx.ResignMasternode.fromBuffer br).map Prod.snd
  | .CreateToken, br => (CustomTx.CreateToken.fromBuffer br).map Prod.snd
  | .MintToken, br => (CustomTx.MintToken.fromBuffer c br).map Prod.snd
  | .UpdateToken, br => (CustomTx.UpdateToken.fromBuffer br).map Prod.snd
  | .UpdateTokenAny, br => (CustomTx.UpdateTokenAny.fromBuffer br).map Prod.snd
  | .CreatePoolPair, br => (CustomTx.CreatePoolPair.fromBuffer c br network).map Prod.snd
  | .UpdatePoolPair, br => (CustomTx.UpdatePoolPair.fromBuffer c br network).map Prod.snd
  | .PoolSwap, br => (CustomTx.PoolSwap.fromBuffer c br network).map Prod.snd
  | .AddPoolLiquidity, br => (CustomTx.AddPoolLiquidity.fromBuffer c key br network).map Prod.snd
  | .RemovePoolLiquidity, br =>
    (CustomTx.RemovePoolLiquidity.fromBuffer c br network).map Prod.snd
  | .UtxosToAccount, br => (CustomTx.UtxosToAccount.fromBuffer c key br network).map Prod.snd
  | .AccountToUtxos, br => (CustomTx.AccountToUtxos.fromBuffer c br network).map Prod.snd
  | .AccountToAccount, br => (CustomTx.AccountToAccount.fromBuffer c key br network).map Prod.snd
  | .SetGovVariable, br => (CustomTx.SetGovVariable.fromBuffer br).map Prod.snd
  | .AnyAccountsToAccounts, br =>
    (CustomTx.AnyAccountsToAccounts.fromBuffer c br network).map Prod.snd

end

/-! ## Predicates used in the statements -/

/-- A writer step that only appends to what the writer holds. -/
def Appends (f : Bytes → Option Bytes) : Prop := ∀ bw out, f bw = some out → bw <+: out

/-- A decoder of a self-delimiting encoding: when it succeeds it has consumed
a prefix `used` of its input and left the rest, and from any input that starts
with `used` it returns the same value and leaves what follows `used`. -/
def SelfDelimiting {α : Type} (D : Bytes → Option (α × Bytes)) : Prop :=
  ∀ b v rest, D b = some (v, rest) →
    ∃ used, b = used ++ rest ∧ ∀ tail, D (used ++ tail) = some (v, tail)

/-- A string all of whose characters are ASCII. -/
def IsAscii (s : String) : Prop := ∀ c ∈ s.data, c.toNat < 128

instance (s : String) : Decidable (IsAscii s) := by
  unfold IsAscii; infer_instance

/-! ## Facts about the primitives -/

theorem toLE_length (w n : Nat) : (toLE w n).length = w := by
  induction w generalizing n with
  | zero => rfl
  | succ w ih => simp [toLE, ih]

theorem fromLE_toLE (w n : Nat) : fromLE (toLE w n) = n % 256 ^ w := by
  induction w generalizing n with
  | zero => simp [toLE, fromLE, Nat.mod_one]
  | succ w ih =>
    simp only [toLE, fromLE, ih]
    rw [pow_succ, Nat.mul_comm (256 ^ w) 256, Nat.mod_mul]

theorem fromLE_toLE_of_lt (w n : Nat) (h : n < 256 ^ w) : fromLE (toLE w n) = n := by
  rw [fromLE_toLE, Nat.mod_eq_of_lt h]

theorem read_append (xs rest : Bytes) : read xs.length (xs ++ rest) = some (xs, rest) := by
  simp [read]

theorem read_append_of_length (n : Nat) (xs rest : Bytes) (h : xs.length = n) :
    read n (xs ++ rest) = some (xs, rest) := by
  subst h; exact read_append xs rest

theorem read_toLE (w n : Nat) (rest : Bytes) :
    read w (toLE w n ++ rest) = some (toLE w n, rest) :=
  read_append_of_length w _ rest (toLE_length w n)

theorem readUInt16LE_toLE (n : Nat) (rest : Bytes) (h : n < 2 ^ 16) :
    readUInt16LE (toLE 2 n ++ rest) = some (n, rest) := by
  simp [readUInt16LE, read_toLE, fromLE_toLE_of_lt 2 n (by norm_num at h ⊢; exact h)]

theorem readUInt32LE_toLE (n : Nat) (rest : Bytes) (h : n < 2 ^ 32) :
    readUInt32LE (toLE 4 n ++ rest) = some (n, rest) := by
  simp [readUInt32LE, read_toLE, fromLE_toLE_of_lt 4 n (by norm_num at h ⊢; exact h)]

theorem readUInt64LEBN_toLE (n : Nat) (rest : Bytes) (h : n < 2 ^ 64) :
    readUInt64LEBN (toLE 8 n ++ rest) = some (n, rest) := by
  simp [readUInt64LEBN, read_toLE, fromLE_toLE_of_lt 8 n (by norm_num at h ⊢; exact h)]

theorem readUInt64LENum_toLE (n : Nat) (rest : Bytes) (h : n < 2 ^ 53) :
    readUInt64LENum (toLE 8 n ++ rest) = some (n, rest) := by
  have h64 : n < 2 ^ 64 := lt_trans h (by norm_num)
  have h' : n < 9007199254740992 := by norm_num at h; exact h
  simp [readUInt64LENum, readUInt64LEBN_toLE n rest h64, BN.toNumber, h']

/-- The varint of a number below `2^53` exists. -/
theorem varintBufNum_isSome (n : Nat) (h : n < 2 ^ 53) : ∃ v, varintBufNum n = some v := by
  unfold varintBufNum
  have h64 : n < 2 ^ 64 := lt_trans h (by norm_num)
  split_ifs <;> exact ⟨_, rfl⟩

/-- Reading back a varint: the reader returns the number and stops right
after the varint. -/
theorem readVarintNum_varintBufNum (n : Nat) (v rest : Bytes) (h : n < 2 ^ 53)
    (hv : varintBufNum n = some v) : readVarintNum (v ++ rest) = some (n, rest) := by
  unfold varintBufNum at hv
  have h64 : n < 2 ^ 64 := lt_trans h (by norm_num)
  split_ifs at hv with h1 h2 h3
  · cases hv
    have a : n ≠ 0xFD := by omega
    have b : n ≠ 0xFE := by omega
    have c : n ≠ 0xFF := by omega
    simp [readVarintNum, a, b, c]
  · cases hv
    simp [readVarintNum, readUInt16LE_toLE n rest (by norm_num at h2 ⊢; exact h2)]
  · cases hv
    simp [readVarintNum, readUInt32LE_toLE n rest (by norm_num at h3 ⊢; exact h3)]
  · cases hv
    simp [readVarintNum, readUInt64LENum_toLE n rest h]

theorem utf8Decode_ascii (l : List Nat) (h : ∀ c ∈ l, c < 128) :
    utf8Decode Utf8State.init l = l := by
  induction l with
  | nil => simp [utf8Decode, Utf8State.init]
  | cons b bs ih =>
    have hb : b ≤ 0x7F := by
      have := h b (List.mem_cons_self _ _); omega
    have ih2 := ih (fun c hc => h c (List.mem_cons_of_mem _ hc))
    simp [utf8Decode, Utf8State.init, utf8Lead, hb] at ih2 ⊢
    exact ih2

theorem flatMap_utf8_ascii (l : List Char) (h : ∀ c ∈ l, c.toNat < 128) :
    l.flatMap (fun c => utf8EncodeChar c.toNat) = l.map Char.toNat := by
  induction l with
  | nil => rfl
  | cons c cs ih =>
    have hc : utf8EncodeChar c.toNat = [c.toNat] := by
      simp [utf8EncodeChar, h c (List.mem_cons_self _ _)]
    rw [List.flatMap_cons, List.map_cons, hc, ih (fun d hd => h d (List.mem_cons_of_mem _ hd))]
    rfl

theorem newBuffer_ascii (s : String) (h : IsAscii s) : newBuffer s = s.data.map Char.toNat :=
  flatMap_utf8_ascii s.data h

theorem sum_utf16_ascii (l : List Char) (h : ∀ c ∈ l, c.toNat < 128) :
    (l.map utf16Units).sum = l.length := by
  induction l with
  | nil => rfl
  | cons c cs ih =>
    have hc : c.toNat < 0x10000 := lt_trans (h c (List.mem_cons_self _ _)) (by norm_num)
    simp only [List.map_cons, List.sum_cons, utf16Units, hc, if_true, List.length_cons]
    rw [ih (fun d hd => h d (List.mem_cons_of_mem _ hd))]
    omega

theorem strLength_ascii (s : String) (h : IsAscii s) : strLength s = s.data.length :=
  sum_utf16_ascii s.data h

/-- For an ASCII string the UTF-8 byte count is the JavaScript length. -/
theorem length_newBuffer_ascii (s : String) (h : IsAscii s) :
    (newBuffer s).length = strLength s := by
  rw [newBuffer_ascii s h, strLength_ascii s h, List.length_map]

/-- Decoding the UTF-8 bytes of an ASCII string gives the string back. -/
theorem bufToString_newBuffer_ascii (s : String) (h : IsAscii s) :
    bufToString (newBuffer s) = s := by
  unfold bufToString
  rw [newBuffer_ascii s h, utf8Decode_ascii]
  · simp [List.map_map, Function.comp_def, Char.ofNat_toNat]
  · intro c hc
    simp only [List.mem_map] at hc
    obtain ⟨d, hd, rfl⟩ := hc
    exact h d hd

theorem read_newBuffer_ascii (s : String) (h : IsAscii s) (rest : Bytes) :
    read (strLength s) (newBuffer s ++ rest) = some (newBuffer s, rest) :=
  read_append_of_length _ _ rest (length_newBuffer_ascii s h)

theorem lookup_createToken : customTxType.lookup "createToken" = some "T" := by decide

/-! ## Every writer step appends -/

theorem appends_pure : Appends (fun bw => pure bw) := by
  intro bw out h
  cases h
  exact List.prefix_refl _

theorem Appends.bind {f : Bytes → Option Bytes} {g : Bytes → Option Bytes}
    (hf : Appends f) (hg : Appends g) : Appends (fun bw => f bw >>= g) := by
  intro bw out h
  simp only [Option.bind_eq_bind, Option.bind_eq_some] at h
  obtain ⟨mid, h1, h2⟩ := h
  exact (hf bw mid h1).trans (hg mid out h2)

theorem Appends.bindVal {α : Type} (x : Option α) {g : α → Bytes → Option Bytes}
    (hg : ∀ a, Appends (g a)) : Appends (fun bw => x >>= fun a => g a bw) := by
  intro bw out h
  simp only [Option.bind_eq_bind, Option.bind_eq_some] at h
  obtain ⟨a, _, h2⟩ := h
  exact hg a bw out h2

theorem appends_write (buf : Bytes) : Appends (write buf) := by
  intro bw out h
  simp only [write, Option.some.injEq] at h
  subst h
  exact List.prefix_append _ _

theorem appends_writeUInt8 (n : Nat) : Appends (writeUInt8 n) := by
  intro bw out h
  unfold writeUInt8 at h
  split_ifs at h
  cases h
  exact List.prefix_append _ _

theorem appends_writeUInt32LE (n : Nat) : Appends (writeUInt32LE n) := by
  intro bw out h
  unfold writeUInt32LE at h
  split_ifs at h
  cases h
  exact List.prefix_append _ _

theorem appends_writeUInt64LEBN (n : Nat) : Appends (writeUInt64LEBN n) := by
  intro bw out h
  unfold writeUInt64LEBN at h
  split_ifs at h
  cases h
  exact List.prefix_append _ _

theorem appends_writeUInt64LEBNQ (x : ℚ) : Appends (writeUInt64LEBNQ x) := by
  intro bw out h
  unfold writeUInt64LEBNQ at h
  split_ifs at h
  exact appends_writeUInt64LEBN _ bw out h

theorem appends_map_append (x : Option Bytes) : Appends (fun bw => x.map (fun v => bw ++ v)) := by
  intro bw out h
  simp only [Option.map_eq_some'] at h
  obtain ⟨v, _, rfl⟩ := h
  exact List.prefix_append _ _

theorem appends_writeVarintNum (n : Nat) : Appends (writeVarintNum n) :=
  appends_map_append (varintBufNum n)

section

variable {S B A N : Type}

theorem appends_writeCScript (c : SubCodecs S B A N) (arg : Option S) :
    Appends (writeCScript c arg) :=
  appends_map_append (c.scriptBytes arg)

theorem appends_writeCBalances (c : SubCodecs S B A N) (arg : B) :
    Appends (writeCBalances c arg) :=
  appends_map_append (c.balancesBytes arg)

theorem appends_writeCAccounts (c : SubCodecs S B A N) (arg : A) :
    Appends (writeCAccounts c arg) :=
  appends_map_append (c.accountsBytes arg)

theorem appends_writeEntries (c : SubCodecs S B A N) (es : List (S × B)) :
    Appends (writeEntries c es) := by
  induction es with
  | nil =>
    intro bw out h
    cases h
    exact List.prefix_refl _
  | cons e es ih =>
    exact Appends.bind (appends_writeCScript c _) (Appends.bind (appends_writeCBalances c _) ih)

end

/-- The bytes of `CUSTOM_SIGNATURE`. -/
theorem newBuffer_signature : newBuffer CUSTOM_SIGNATURE = [0x44, 0x66, 0x54, 0x78] := by decide

/-- A `toBuffer` that writes the header and then only appends returns the
signature, the tag and a tail. -/
theorem header_of_appends (k : String) (f : Bytes → Option Bytes) (hf : Appends f) (out : Bytes)
    (h : writeHeader k >>= f = some out) :
    ∃ tag tl, customTxType.lookup k = some tag ∧
      out = [0x44, 0x66, 0x54, 0x78] ++ newBuffer tag ++ tl := by
  simp only [writeHeader, write, Option.bind_eq_bind, Option.bind_eq_some, newBuffer_signature,
    Option.pure_def, Option.some.injEq, List.nil_append, exists_eq_left'] at h
  obtain ⟨bw, ⟨tag, htag, rfl⟩, hout⟩ := h
  obtain ⟨tl, rfl⟩ := hf _ out hout
  exact ⟨tag, tl, htag, rfl⟩

/-! ## C1: signature and tag -/

section

variable {S B A N : Type}

/-- C1. For each of the sixteen exported variants and every input record on
which the variant's `toBuffer` succeeds, the output starts with the four ASCII
bytes of `DfTx` (0x44 0x66 0x54 0x78), and its fifth byte is the tag that
`customTxType` holds for that variant: the tag is a one-byte string and the
output is signature, tag byte, then the variant's fields. -/
theorem toBuffer_signature_and_tag (c : SubCodecs S B A N) (r : Record S B A) (out : Bytes)
    (h : Record.toBuffer c r = some out) :
    ∃ tag, customTxType.lookup r.typeName = some tag ∧
      (newBuffer tag).length = 1 ∧
      out.take 4 = [0x44, 0x66, 0x54, 0x78] ∧
      (out.drop 4).take 1 = newBuffer tag := by
  have key : ∃ tag tl, customTxType.lookup r.typeName = some tag ∧
      out = [0x44, 0x66, 0x54, 0x78] ++ newBuffer tag ++ tl := by
    cases r <;>
    · refine header_of_appends _ _ ?_ out h
      repeat (first
        | exact appends_pure
        | exact appends_write _
        | exact appends_writeUInt8 _
        | exact appends_writeUInt32LE _
        | exact appends_writeUInt64LEBN _
        | exact appends_writeUInt64LEBNQ _
        | exact appends_writeVarintNum _
        | exact appends_writeCScript _ _
        | exact appends_writeCBalances _ _
        | exact appends_writeCAccounts _ _
        | exact appends_writeEntries _ _
        | refine Appends.bind ?_ ?_
        | refine Appends.bindVal _ (fun _ => ?_))
  obtain ⟨tag, tl, htag, rfl⟩ := key
  have hlen : (newBuffer tag).length = 1 := by
    cases r <;> (cases htag; decide)
  refine ⟨tag, htag, hlen, by simp, ?_⟩
  simp only [List.append_assoc, List.cons_append, List.nil_append, List.drop_succ_cons,
    List.drop_zero]
  exact List.take_left' hlen

/-- Witness for C1: the hypothesis of `toBuffer_signature_and_tag` holds for a
CreateToken record, and the conclusion names its tag `T`. -/
theorem toBuffer_signature_and_tag_witness :
    Record.toBuffer lpCodecs (Record.CreateToken ⟨"BTC", "Bitcoin", 8, 0, 1⟩) =
        some [68, 102, 84, 120, 84, 3, 66, 84, 67, 7, 66, 105, 116, 99, 111, 105, 110,
          8, 0, 0, 0, 0, 0, 0, 0, 0, 1] ∧
      ∃ tag, customTxType.lookup "createToken" = some tag ∧
        (newBuffer tag).length = 1 ∧
        ([68, 102, 84, 120, 84, 3, 66, 84, 67, 7, 66, 105, 116, 99, 111, 105, 110,
          8, 0, 0, 0, 0, 0, 0, 0, 0, 1] : Bytes).take 4 = [0x44, 0x66, 0x54, 0x78] ∧
        (([68, 102, 84, 120, 84, 3, 66, 84, 67, 7, 66, 105, 116, 99, 111, 105, 110,
          8, 0, 0, 0, 0, 0, 0, 0, 0, 1] : Bytes).drop 4).take 1 = newBuffer tag :=
  ⟨by decide, toBuffer_signature_and_tag lpCodecs (Record.CreateToken ⟨"BTC", "Bitcoin", 8, 0, 1⟩)
    _ (by decide)⟩

end

/-! ## C2 and C3: CreateToken -/

theorem writeVarintNum_eq (n : Nat) (v bw : Bytes) (h : varintBufNum n = some v) :
    writeVarintNum n bw = some (bw ++ v) := by
  simp [writeVarintNum, h]

theorem readUInt8_cons (b : Nat) (rest : Bytes) : readUInt8 (b :: rest) = some (b, rest) := rfl

theorem newBuffer_T : newBuffer "T" = [0x54] := by decide

/-- The bytes `CreateToken.toBuffer` returns. -/
theorem CreateToken_toBuffer_eq (data : CreateTokenData) (vs vn : Bytes)
    (hvs : varintBufNum (strLength data.symbol) = some vs)
    (hvn : varintBufNum (strLength data.name) = some vn)
    (hdec : data.decimal < 256) (hflags : data.flags < 256) (hlimit : data.limit < 2 ^ 53) :
    CreateToken.toBuffer data =
      some ([0x44, 0x66, 0x54, 0x78, 0x54] ++ (vs ++ (newBuffer data.symbol ++ (vn ++
        (newBuffer data.name ++ (data.decimal :: (toLE 8 data.limit ++ [data.flags]))))))) := by
  have h64 : data.limit < 2 ^ 64 := lt_trans hlimit (by norm_num)
  have hdec53 : data.decimal < 2 ^ 53 := lt_trans hdec (by norm_num)
  simp only [CreateToken.toBuffer, hdec53, writeHeader, write, lookup_createToken, newBuffer_signature,
    newBuffer_T, writeVarintNum_eq _ _ _ hvs, writeVarintNum_eq _ _ _ hvn, BN.fromNumber,
    writeUInt8, writeUInt64LEBN, hdec, hflags, hlimit, h64, if_true, Option.bind_eq_bind,
    Option.some_bind, Option.pure_def, List.nil_append, List.append_assoc, List.cons_append, List.singleton_append]

/-- C2. CreateToken round trip: for a record with ASCII strings `symbol` and
`name` (a JavaScript string is shorter than `2^53`), `decimal` and `flags` in
0..255 and `limit` in 0..2^53-1, and for every byte string `rest`,
`CreateToken.toBuffer` succeeds, its output starts with the five bytes of the
signature and the tag, and `CreateToken.fromBuffer` on the output without
these five bytes, followed by `rest`, returns exactly the input record and
leaves the reader at the first byte of `rest`. -/
theorem CreateToken_roundtrip (data : CreateTokenData) (rest : Bytes)
    (hsym : IsAscii data.symbol) (hname : IsAscii data.name)
    (hsymLen : strLength data.symbol < 2 ^ 53) (hnameLen : strLength data.name < 2 ^ 53)
    (hdec : data.decimal < 256) (hlimit : data.limit < 2 ^ 53) (hflags : data.flags < 256) :
    ∃ out, CreateToken.toBuffer data = some out ∧
      out.take 5 = [0x44, 0x66, 0x54, 0x78, 0x54] ∧
      CreateToken.fromBuffer (out.drop 5 ++ rest) = some (data, rest) := by
  obtain ⟨vs, hvs⟩ := varintBufNum_isSome _ hsymLen
  obtain ⟨vn, hvn⟩ := varintBufNum_isSome _ hnameLen
  refine ⟨_, CreateToken_toBuffer_eq data vs vn hvs hvn hdec hflags hlimit, by simp, ?_⟩
  simp only [List.cons_append, List.nil_append, List.drop_succ_cons, List.drop_zero,
    List.append_assoc, CreateToken.fromBuffer, Option.bind_eq_bind, Option.pure_def,
    readVarintNum_varintBufNum _ _ _ hsymLen hvs, readVarintNum_varintBufNum _ _ _ hnameLen hvn,
    read_newBuffer_ascii _ hsym, read_newBuffer_ascii _ hname, readUInt8_cons,
    readUInt64LENum_toLE _ _ hlimit, Option.some_bind, bufToString_newBuffer_ascii _ hsym,
    bufToString_newBuffer_ascii _ hname]

/-- Witness for C2: the record of the BTC scenario satisfies the hypotheses of
`CreateToken_roundtrip`, here with two further bytes behind the payload. -/
theorem CreateToken_roundtrip_witness :
    (IsAscii "BTC" ∧ IsAscii "Bitcoin" ∧ strLength "BTC" < 2 ^ 53 ∧ strLength "Bitcoin" < 2 ^ 53 ∧
      8 < 256 ∧ 0 < 2 ^ 53 ∧ 1 < 256) ∧
    ∃ out, CreateToken.toBuffer ⟨"BTC", "Bitcoin", 8, 0, 1⟩ = some out ∧
      out.take 5 = [0x44, 0x66, 0x54, 0x78, 0x54] ∧
      CreateToken.fromBuffer (out.drop 5 ++ [9, 9]) = some (⟨"BTC", "Bitcoin", 8, 0, 1⟩, [9, 9]) :=
  ⟨by decide, CreateToken_roundtrip ⟨"BTC", "Bitcoin", 8, 0, 1⟩ [9, 9] (by decide) (by decide)
    (by decide) (by decide) (by decide) (by decide) (by decide)⟩

theorem varintBufNum_small (n : Nat) (h : n < 253) : varintBufNum n = some [n] := by
  simp [varintBufNum, h]

theorem getElem?_append_cons {α : Type} (xs : List α) (a : α) (ys : List α) (n : Nat)
    (h : xs.length = n) : (xs ++ a :: ys)[n]? = some a := by
  subst h
  rw [List.getElem?_append_right (Nat.le_refl _)]
  simp

/-- When `CreateToken.toBuffer` returns, the numeric fields were in range. -/
theorem CreateToken_toBuffer_ranges (data : CreateTokenData) (out : Bytes)
    (h : CreateToken.toBuffer data = some out) :
    data.decimal < 256 ∧ data.limit < 2 ^ 53 ∧ data.flags < 256 := by
  simp only [CreateToken.toBuffer, Option.bind_eq_bind, Option.bind_eq_some, BN.fromNumber,
    writeUInt8, writeUInt64LEBN, Option.pure_def, Option.some.injEq] at h
  obtain ⟨_, _, _, _, _, _, _, _, _, _, d, hd, _, hd2, l, hl, _, _, _, hf, _⟩ := h
  split_ifs at hd hd2 hl hf with h1 h2 h3 h4
  cases hd
  cases hl
  exact ⟨h2, h3, h4⟩

/-- C3. CreateToken layout: for every record whose `symbol` and `name` are
ASCII strings of fewer than 253 characters, whatever `CreateToken.toBuffer`
returns has exactly `4 + 1 + (1 + |symbol|) + (1 + |name|) + 1 + 8 + 1` bytes,
byte 5 is `|symbol|` and the byte right after the symbol bytes is `|name|`;
and `CreateToken.toBuffer` does return when `decimal` and `flags` are bytes and
`limit` is below `2^53`. -/
theorem CreateToken_layout (data : CreateTokenData)
    (hsym : IsAscii data.symbol) (hname : IsAscii data.name)
    (hsymLen : data.symbol.length < 253) (hnameLen : data.name.length < 253) :
    (∀ out, CreateToken.toBuffer data = some out →
      out.length = 4 + 1 + (1 + data.symbol.length) + (1 + data.name.length) + 1 + 8 + 1 ∧
      out[5]? = some data.symbol.length ∧
      out[5 + 1 + data.symbol.length]? = some data.name.length) ∧
    (data.decimal < 256 → data.limit < 2 ^ 53 → data.flags < 256 →
      ∃ out, CreateToken.toBuffer data = some out) := by
  have e1 : strLength data.symbol = data.symbol.length := strLength_ascii _ hsym
  have e2 : strLength data.name = data.name.length := strLength_ascii _ hname
  have l1 : (newBuffer data.symbol).length = data.symbol.length := by
    rw [length_newBuffer_ascii _ hsym, e1]
  have l2 : (newBuffer data.name).length = data.name.length := by
    rw [length_newBuffer_ascii _ hname, e2]
  have hvs := varintBufNum_small (strLength data.symbol) (by rw [e1]; exact hsymLen)
  have hvn := varintBufNum_small (strLength data.name) (by rw [e2]; exact hnameLen)
  refine ⟨fun out hout => ?_, fun hdec hlimit hflags =>
    ⟨_, CreateToken_toBuffer_eq data _ _ hvs hvn hdec hflags hlimit⟩⟩
  obtain ⟨hdec, hlimit, hflags⟩ := CreateToken_toBuffer_ranges data out hout
  rw [CreateToken_toBuffer_eq data _ _ hvs hvn hdec hflags hlimit, Option.some.injEq] at hout
  subst hout
  refine ⟨?_, ?_, ?_⟩
  · simp only [List.length_append, List.length_cons, List.length_nil, l1, l2, toLE_length, e1, e2]
    omega
  · simp [e1]
  · rw [e1, e2]
    have := getElem?_append_cons
      ([0x44, 0x66, 0x54, 0x78, 0x54] ++ ([data.symbol.length] ++ newBuffer data.symbol))
      data.name.length (newBuffer data.name ++ (data.decimal :: (toLE 8 data.limit ++ [data.flags])))
      (5 + 1 + data.symbol.length) (by simp [l1]; omega)
    simpa using this

/-- Witness for C3, the scenario of the specification: `{symbol:'BTC',
name:'Bitcoin', decimal:8, limit:0, flags:1}` encodes to 27 bytes with length
bytes 3 and 7. -/
theorem CreateToken_layout_witness :
    (IsAscii "BTC" ∧ IsAscii "Bitcoin" ∧ "BTC".length < 253 ∧ "Bitcoin".length < 253) ∧
    CreateToken.toBuffer ⟨"BTC", "Bitcoin", 8, 0, 1⟩ =
      some [68, 102, 84, 120, 84, 3, 66, 84, 67, 7, 66, 105, 116, 99, 111, 105, 110,
        8, 0, 0, 0, 0, 0, 0, 0, 0, 1] ∧
    ([68, 102, 84, 120, 84, 3, 66, 84, 67, 7, 66, 105, 116, 99, 111, 105, 110,
        8, 0, 0, 0, 0, 0, 0, 0, 0, 1] : Bytes).length = 4 + 1 + (1 + 3) + (1 + 7) + 1 + 8 + 1 ∧
    ([68, 102, 84, 120, 84, 3, 66, 84, 67, 7, 66, 105, 116, 99, 111, 105, 110,
        8, 0, 0, 0, 0, 0, 0, 0, 0, 1] : Bytes)[5]? = some 3 ∧
    ([68, 102, 84, 120, 84, 3, 66, 84, 67, 7, 66, 105, 116, 99, 111, 105, 110,
        8, 0, 0, 0, 0, 0, 0, 0, 0, 1] : Bytes)[5 + 1 + 3]? = some 7 :=
  ⟨by decide, by decide,
    (CreateToken_layout ⟨"BTC", "Bitcoin", 8, 0, 1⟩ (by decide) (by decide) (by decide)
      (by decide)).1 _ (by decide)⟩

/-! ## C4: the length prefix of a non-ASCII string -/

/-- C4 at the failing input `{symbol:'é', name:'Bitcoin', decimal:8, limit:0,
flags:1}`: `CreateToken.toBuffer` writes the prefix 1 (`'é'.length`) and then
the two UTF-8 bytes 0xC3 0xA9 of the symbol, so the prefix is not the number
of bytes that follow it, and `CreateToken.fromBuffer` fails on the payload. -/
theorem CreateToken_prefix_counts_code_units :
    CreateToken.toBuffer ⟨"é", "Bitcoin", 8, 0, 1⟩ =
        some [68, 102, 84, 120, 84, 1, 195, 169, 7, 66, 105, 116, 99, 111, 105, 110,
          8, 0, 0, 0, 0, 0, 0, 0, 0, 1] ∧
      newBuffer "é" = [195, 169] ∧
      strLength "é" = 1 ∧
      CreateToken.fromBuffer [1, 195, 169, 7, 66, 105, 116, 99, 111, 105, 110,
          8, 0, 0, 0, 0, 0, 0, 0, 0, 1] = none := by
  decide

/-! ## C5: ResignMasternode -/

set_option maxRecDepth 8192

/-- C5 at the failing input `nodeId = '00…0'` (64 hex digits, the form
`ResignMasternode.fromBuffer` returns): `ResignMasternode.toBuffer` writes 64
bytes after the five-byte prefix, the ASCII codes of the digits, not the 32
bytes the digits denote; `ResignMasternode.fromBuffer` on that payload returns
the node id `'3030…30'` and leaves 32 bytes unread. -/
theorem ResignMasternode_writes_hex_digits :
    ResignMasternode.toBuffer ⟨"0000000000000000000000000000000000000000000000000000000000000000"⟩ =
        some ([68, 102, 84, 120, 82] ++ List.replicate 64 48) ∧
      ResignMasternode.fromBuffer (List.replicate 64 48) =
        some (⟨"3030303030303030303030303030303030303030303030303030303030303030"⟩,
          List.replicate 32 48) := by
  decide

/-! ## C6: PoolSwap -/

/-- C6 at the failing input `{from: [1,2], idTokenFrom: 1, amountFrom: 1,
to: [3], idTokenTo: 2, maxPrice: {integer: 1, fraction: 0}}` with
length-framed scripts: `PoolSwap.toBuffer` writes both token ids as four
little-endian bytes and `amountFrom` unscaled (1, while `maxPrice.integer` 1
is written as 100000000); `PoolSwap.fromBuffer` reads the ids as varints and
divides every amount by 10^8, so on the payload it returns idTokenFrom 1,
amountFrom 16777216/10^8, an empty `to`, idTokenTo 0 and other prices, and
leaves seven bytes unread. -/
theorem PoolSwap_encode_decode_disagree :
    PoolSwap.toBuffer lpCodecs ⟨[1, 2], 1, 1, [3], 2, ⟨1, 0⟩⟩ =
        some ([68, 102, 84, 120, 115] ++ ([2, 1, 2, 1, 0, 0, 0, 1, 0, 0, 0, 0, 0, 0, 0, 1, 3] ++
          [2, 0, 0, 0, 0, 225, 245, 5, 0, 0, 0, 0, 0, 0, 0, 0, 0, 0, 0, 0])) ∧
      PoolSwap.fromBuffer lpCodecs ([2, 1, 2, 1, 0, 0, 0, 1, 0, 0, 0, 0, 0, 0, 0, 1, 3] ++
          [2, 0, 0, 0, 0, 225, 245, 5, 0, 0, 0, 0, 0, 0, 0, 0, 0, 0, 0, 0]) none =
        some (⟨[1, 2], 1, (16777216 : ℚ) / 100000000, [], 0,
          ⟨(33751296 : ℚ) / 100000000, (390625 : ℚ) / 100000000⟩⟩, [0, 0, 0, 0, 0, 0, 0]) := by
  decide!

/-! ## C7: AccountToUtxos -/

/-- C7 at the failing input `{from: [1,2], balances: [3], mintingOutputsStart:
256}` with length-framed sub-codecs: `AccountToUtxos.toBuffer` writes
`mintingOutputsStart` as the four bytes 00 01 00 00, `AccountToUtxos.fromBuffer`
reads a varint there: it returns mintingOutputsStart 0 and leaves three of the
four bytes unread. -/
theorem AccountToUtxos_mintingOutputsStart_disagree :
    AccountToUtxos.toBuffer lpCodecs ⟨[1, 2], [3], 256⟩ =
        some ([68, 102, 84, 120, 98] ++ [2, 1, 2, 1, 3, 0, 1, 0, 0]) ∧
      AccountToUtxos.fromBuffer lpCodecs [2, 1, 2, 1, 3, 0, 1, 0, 0] none =
        some (⟨[1, 2], [3], 0⟩, [1, 0, 0]) := by
  decide

/-! ## C8: CreatePoolPair -/

section
variable {S B A N : Type}

end

/-! ## C9: RemovePoolLiquidity -/

section
variable {S B A N : Type}

/-- C9, what the code does: `RemovePoolLiquidity.toBuffer` never reads the
field `from` of its argument (line 404 passes `data.form`), so two records
that differ only in `from` encode to the same result. -/
theorem RemovePoolLiquidity_toBuffer_ignores_from (c : SubCodecs S B A N)
    (data : RemovePoolLiquidityData S) (s₁ s₂ : S) :
    RemovePoolLiquidity.toBuffer c { data with from_ := s₁ } =
      RemovePoolLiquidity.toBuffer c { data with from_ := s₂ } := rfl

end

/-! ## C10: UpdateTokenAny -/

/-- C10 as stated fails at `{tokenTx: '00…0' (64 hex digits), symbol: 'BTC',
name: 'Bitcoin', decimal: 8, limit: 0, mintable: 1, tradeable: 1, isDAT: 1}`:
the symbol and the name are ASCII and shorter than 253, `toBuffer` returns 93
bytes (64 of them for `tokenTx`), and `UpdateTokenAny.fromBuffer` on the 88
payload bytes fails instead of stopping two bytes before the end. -/
theorem UpdateTokenAny_hex_tokenTx_not_decoded :
    IsAscii "BTC" ∧ IsAscii "Bitcoin" ∧ "BTC".length < 253 ∧ "Bitcoin".length < 253 ∧
      UpdateTokenAny.toBuffer
          ⟨"0000000000000000000000000000000000000000000000000000000000000000",
            "BTC", "Bitcoin", 8, 0, 1, 1, 1⟩ =
        some ([68, 102, 84, 120, 110] ++ (List.replicate 64 48 ++
          [3, 66, 84, 67, 7, 66, 105, 116, 99, 111, 105, 110, 8, 0, 0, 0, 0, 0, 0, 0, 0, 1, 1, 1])) ∧
      UpdateTokenAny.fromBuffer (List.replicate 64 48 ++
          [3, 66, 84, 67, 7, 66, 105, 116, 99, 111, 105, 110, 8, 0, 0, 0, 0, 0, 0, 0, 0, 1, 1, 1]) =
        none := by
  decide

theorem lookup_updateTokenAny : customTxType.lookup "updateTokenAny" = some "n" := by decide

theorem newBuffer_n : newBuffer "n" = [0x6e] := by decide

/-- The bytes `UpdateTokenAny.toBuffer` returns, and what
`UpdateTokenAny.fromBuffer` makes of the payload when `tokenTx` takes 32 bytes. -/
theorem UpdateTokenAny_decode_encode (data : UpdateTokenAnyData)
    (htx : (newBuffer data.tokenTx).length = 32)
    (hsym : IsAscii data.symbol) (hname : IsAscii data.name)
    (hsymLen : data.symbol.length < 253) (hnameLen : data.name.length < 253)
    (hdec : data.decimal < 256) (hlimit : data.limit < 2 ^ 53)
    (hm : data.mintable < 256) (ht : data.tradeable < 256) (hd : data.isDAT < 256) :
    ∃ out, UpdateTokenAny.toBuffer data = some out ∧
      out.take 5 = [0x44, 0x66, 0x54, 0x78, 0x6e] ∧
      UpdateTokenAny.fromBuffer (out.drop 5) =
        some (⟨bufToHex (newBuffer data.tokenTx),
            ⟨data.symbol, data.name, data.decimal, data.limit, data.mintable⟩⟩,
          [data.tradeable, data.isDAT]) := by
  have e1 : strLength data.symbol = data.symbol.length := strLength_ascii _ hsym
  have e2 : strLength data.name = data.name.length := strLength_ascii _ hname
  have hvs := varintBufNum_small (strLength data.symbol) (by rw [e1]; exact hsymLen)
  have hvn := varintBufNum_small (strLength data.name) (by rw [e2]; exact hnameLen)
  have h64 : data.limit < 2 ^ 64 := lt_trans hlimit (by norm_num)
  have henc : UpdateTokenAny.toBuffer data =
      some ([0x44, 0x66, 0x54, 0x78, 0x6e] ++ (newBuffer data.tokenTx ++
        (strLength data.symbol :: (newBuffer data.symbol ++ (strLength data.name ::
        (newBuffer data.name ++ (data.decimal :: (toLE 8 data.limit ++
        [data.mintable, data.tradeable, data.isDAT])))))))) := by
    simp only [UpdateTokenAny.toBuffer, writeHeader, write, lookup_updateTokenAny,
      newBuffer_signature, newBuffer_n, writeVarintNum_eq _ _ _ hvs, writeVarintNum_eq _ _ _ hvn,
      BN.fromNumber, writeUInt8, writeUInt64LEBN, hdec, hm, ht, hd, hlimit, h64, if_true,
      Option.bind_eq_bind, Option.some_bind, Option.pure_def, List.nil_append, List.append_assoc,
      List.cons_append, List.singleton_append]
  refine ⟨_, henc, by simp, ?_⟩
  simp only [List.cons_append, List.nil_append, List.drop_succ_cons, List.drop_zero,
    List.append_assoc, UpdateTokenAny.fromBuffer, Option.bind_eq_bind, Option.pure_def,
    read_append_of_length 32 _ _ htx, read_newBuffer_ascii _ hsym, read_newBuffer_ascii _ hname,
    readUInt8_cons, readUInt64LENum_toLE _ _ hlimit, Option.some_bind,
    bufToString_newBuffer_ascii _ hsym, bufToString_newBuffer_ascii _ hname]

/-- C10, amended. For a record whose `tokenTx` is written as exactly 32 bytes,
with ASCII `symbol` and `name` shorter than 253 and numeric fields in range:
`UpdateTokenAny.toBuffer` writes three single bytes (mintable, tradeable,
isDAT) after the limit, `UpdateTokenAny.fromBuffer` reads one flags byte, so
decoding the encoded payload leaves exactly the two bytes tradeable and isDAT
unconsumed, the decoded flags is the encoded mintable byte, and a record with
another `tradeable` decodes to the same record: encode and decode are not
mutual inverses. -/
theorem UpdateTokenAny_not_inverse (data : UpdateTokenAnyData)
    (htx : (newBuffer data.tokenTx).length = 32)
    (hsym : IsAscii data.symbol) (hname : IsAscii data.name)
    (hsymLen : data.symbol.length < 253) (hnameLen : data.name.length < 253)
    (hdec : data.decimal < 256) (hlimit : data.limit < 2 ^ 53)
    (hm : data.mintable < 256) (ht : data.tradeable < 256) (hd : data.isDAT < 256) :
    ∃ out decoded, UpdateTokenAny.toBuffer data = some out ∧
      out.take 5 = [0x44, 0x66, 0x54, 0x78, 0x6e] ∧
      UpdateTokenAny.fromBuffer (out.drop 5) = some (decoded, [data.tradeable, data.isDAT]) ∧
      decoded.newToken.flags = data.mintable ∧
      decoded.newToken.symbol = data.symbol ∧ decoded.newToken.name = data.name ∧
      decoded.newToken.decimal = data.decimal ∧ decoded.newToken.limit = data.limit ∧
      ∃ other out', other.tradeable ≠ data.tradeable ∧
        UpdateTokenAny.toBuffer other = some out' ∧
        (UpdateTokenAny.fromBuffer (out'.drop 5)).map Prod.fst = some decoded := by
  obtain ⟨out, h1, h2, h3⟩ := UpdateTokenAny_decode_encode data htx hsym hname hsymLen hnameLen
    hdec hlimit hm ht hd
  refine ⟨out, _, h1, h2, h3, rfl, rfl, rfl, rfl, rfl, ?_⟩
  obtain ⟨out', h1', _, h3'⟩ := UpdateTokenAny_decode_encode
    { data with tradeable := if data.tradeable = 0 then 1 else 0 } htx hsym hname hsymLen hnameLen
    hdec hlimit hm (by simp only; split_ifs <;> decide) hd
  refine ⟨_, out', ?_, h1', ?_⟩
  · simp only
    split_ifs with h0 <;> omega
  · rw [h3']
    rfl

/-- Witness for C10: a record whose `tokenTx` is a string of 32 ASCII
characters satisfies the hypotheses of `UpdateTokenAny_not_inverse`. -/
theorem UpdateTokenAny_not_inverse_witness :
    ((newBuffer "0123456789abcdef0123456789abcdef").length = 32 ∧
      IsAscii "BTC" ∧ IsAscii "Bitcoin" ∧ "BTC".length < 253 ∧ "Bitcoin".length < 253 ∧
      8 < 256 ∧ 0 < 2 ^ 53 ∧ 1 < 256 ∧ 0 < 256 ∧ 1 < 256) ∧
    ∃ out decoded,
      UpdateTokenAny.toBuffer ⟨"0123456789abcdef0123456789abcdef", "BTC", "Bitcoin", 8, 0, 1, 0, 1⟩ =
        some out ∧
      out.take 5 = [0x44, 0x66, 0x54, 0x78, 0x6e] ∧
      UpdateTokenAny.fromBuffer (out.drop 5) = some (decoded, [0, 1]) ∧
      decoded.newToken.flags = 1 ∧
      decoded.newToken.symbol = "BTC" ∧ decoded.newToken.name = "Bitcoin" ∧
      decoded.newToken.decimal = 8 ∧ decoded.newToken.limit = 0 ∧
      ∃ other out', other.tradeable ≠ 0 ∧
        UpdateTokenAny.toBuffer other = some out' ∧
        (UpdateTokenAny.fromBuffer (out'.drop 5)).map Prod.fst = some decoded :=
  ⟨by decide,
    UpdateTokenAny_not_inverse ⟨"0123456789abcdef0123456789abcdef", "BTC", "Bitcoin", 8, 0, 1, 0, 1⟩
      (by decide) (by decide) (by decide) (by decide) (by decide) (by decide) (by decide)
      (by decide) (by decide) (by decide)⟩

/-! ## C11: the decoded account list -/

section
variable {V : Type}

theorem lookup_cons_eq (a : String) (b : V) (es : List (String × V)) (k : String) :
    List.lookup k ((a, b) :: es) = if k = a then some b else List.lookup k es := by
  rw [List.lookup_cons]
  by_cases h : k = a
  · simp [h]
  · have : (k == a) = false := by simpa using h
    simp [h, this]

theorem lookup_map_replace (o : JSObject V) (k k' : String) (v : V) :
    List.lookup k' (o.map (fun p => if p.1 = k then (p.1, v) else p)) =
      if k' = k then (List.lookup k o).map (fun _ => v) else List.lookup k' o := by
  induction o with
  | nil => simp
  | cons p o ih =>
    obtain ⟨a, b⟩ := p
    rw [List.map_cons]
    by_cases hak : a = k
    · rw [if_pos hak, lookup_cons_eq, lookup_cons_eq, lookup_cons_eq, ih]
      subst hak
      by_cases hk : k' = a
      · simp [hk]
      · simp [hk]
    · rw [if_neg hak, lookup_cons_eq, lookup_cons_eq, lookup_cons_eq, ih]
      by_cases hk : k' = k
      · subst hk
        have h1 : ¬ k' = a := fun h => hak h.symm
        simp [h1]
      · simp [hk]

theorem keys_map_replace (o : JSObject V) (k : String) (v : V) :
    (o.map (fun p => if p.1 = k then (p.1, v) else p)).map Prod.fst = o.map Prod.fst := by
  induction o with
  | nil => rfl
  | cons p o ih =>
    simp only [List.map_cons, ih]
    split <;> rfl

theorem any_key_iff (o : JSObject V) (k : String) :
    o.any (fun p => p.1 == k) = true ↔ k ∈ o.map Prod.fst := by
  simp only [List.any_eq_true, List.mem_map, beq_iff_eq]

theorem lookup_eq_none_of_not_mem (o : JSObject V) (k : String) (h : k ∉ o.map Prod.fst) :
    List.lookup k o = none := by
  rw [List.lookup_eq_none_iff]
  intro p hp
  simp only [bne_iff_ne, ne_eq]
  intro hk
  exact h (List.mem_map.mpr ⟨p, hp, hk.symm⟩)

theorem lookup_isSome_of_mem (o : JSObject V) (k : String) (h : k ∈ o.map Prod.fst) :
    ∃ v, List.lookup k o = some v := by
  have : (List.lookup k o).isSome := by
    rw [List.lookup_isSome_iff]
    obtain ⟨p, hp, rfl⟩ := List.mem_map.mp h
    exact ⟨p, hp, by simp⟩
  exact Option.isSome_iff_exists.mp this

/-- Reading a property after `o[k] = v`. -/
theorem lookup_put (o : JSObject V) (k k' : String) (v : V) :
    List.lookup k' (JSObject.put o k v) = if k' = k then some v else List.lookup k' o := by
  unfold JSObject.put
  by_cases hmem : o.any (fun p => p.1 == k) = true
  · rw [if_pos hmem, lookup_map_replace]
    by_cases hk : k' = k
    · obtain ⟨w, hw⟩ := lookup_isSome_of_mem o k ((any_key_iff o k).mp hmem)
      simp [hk, hw]
    · simp [hk]
  · rw [if_neg hmem]
    have hnot : k ∉ o.map Prod.fst := fun h => hmem ((any_key_iff o k).mpr h)
    have hnone := lookup_eq_none_of_not_mem o k hnot
    cases hidx : arrayIndex k with
    | none =>
      simp only [List.lookup_append, List.lookup_cons, List.lookup_nil]
      by_cases hk : k' = k
      · subst hk
        simp [hnone]
      · have : (k' == k) = false := by simpa using hk
        simp [hk, this]
    | some n =>
      simp only
      have hsplit := List.takeWhile_append_dropWhile
        (fun p : String × V => (arrayIndex p.1).any (fun m => m < n)) o
      rw [List.lookup_append, List.lookup_cons]
      by_cases hk : k' = k
      · subst hk
        have h1 : List.lookup k' (o.takeWhile
            (fun p : String × V => (arrayIndex p.1).any (fun m => m < n))) = none := by
          apply lookup_eq_none_of_not_mem
          intro hm
          apply hnot
          obtain ⟨p, hp, hpk⟩ := List.mem_map.mp hm
          exact List.mem_map.mpr ⟨p, (List.takeWhile_sublist _).subset hp, hpk⟩
        simp [h1]
      · have : (k' == k) = false := by simpa using hk
        simp only [this, if_neg hk]
        rw [← List.lookup_append, hsplit]

/-- The assignment `o[k] = v` keeps the property names distinct. -/
theorem keys_nodup_put (o : JSObject V) (k : String) (v : V) (h : (o.map Prod.fst).Nodup) :
    ((JSObject.put o k v).map Prod.fst).Nodup := by
  unfold JSObject.put
  by_cases hmem : o.any (fun p => p.1 == k) = true
  · rw [if_pos hmem, keys_map_replace]
    exact h
  · rw [if_neg hmem]
    have hnot : k ∉ o.map Prod.fst := fun h => hmem ((any_key_iff o k).mpr h)
    cases hidx : arrayIndex k with
    | none =>
      simp only [List.map_append, List.map_cons, List.map_nil]
      rw [List.nodup_append]
      refine ⟨h, List.nodup_singleton _, ?_⟩
      intro a ha hb
      simp only [List.mem_singleton] at hb
      subst hb
      exact hnot ha
    | some n =>
      simp only [List.map_append, List.map_cons]
      rw [List.nodup_middle, ← List.map_append, List.takeWhile_append_dropWhile]
      exact List.nodup_cons.mpr ⟨hnot, h⟩

/-- The assignment `o[k] = v` adds at most one property. -/
theorem length_put_le (o : JSObject V) (k : String) (v : V) :
    (JSObject.put o k v).length ≤ o.length + 1 := by
  unfold JSObject.put
  split
  · simp
  · cases arrayIndex k with
    | none => simp
    | some n =>
      simp only [List.length_append, List.length_cons]
      have := congrArg List.length (List.takeWhile_append_dropWhile
        (fun p : String × V => (arrayIndex p.1).any (fun m => m < n)) o)
      simp only [List.length_append] at this
      omega

/-- Assigning to a key that is already a property adds none. -/
theorem length_put_of_mem (o : JSObject V) (k : String) (v : V) (h : k ∈ o.map Prod.fst) :
    (JSObject.put o k v).length = o.length := by
  unfold JSObject.put
  rw [if_pos ((any_key_iff o k).mpr h)]
  simp

/-- A new key that is no array index goes last. -/
theorem put_of_new (o : JSObject V) (k : String) (v : V) (h : k ∉ o.map Prod.fst)
    (hidx : arrayIndex k = none) : JSObject.put o k v = o ++ [(k, v)] := by
  unfold JSObject.put
  have hmem : ¬ o.any (fun p => p.1 == k) = true := fun hm => h ((any_key_iff o k).mp hm)
  rw [if_neg hmem, hidx]

end

section
variable {V : Type}

theorem mem_keys_iff_lookup (o : JSObject V) (k : String) :
    k ∈ o.map Prod.fst ↔ (List.lookup k o).isSome = true := by
  rw [List.lookup_isSome_iff]
  simp only [List.mem_map, beq_iff_eq]
  constructor
  · rintro ⟨p, hp, rfl⟩
    exact ⟨p, hp, rfl⟩
  · rintro ⟨p, hp, rfl⟩
    exact ⟨p, hp, rfl⟩

/-- The property names after `o[k] = v`. -/
theorem mem_keys_put (o : JSObject V) (k k' : String) (v : V) :
    k' ∈ (JSObject.put o k v).map Prod.fst ↔ k' = k ∨ k' ∈ o.map Prod.fst := by
  rw [mem_keys_iff_lookup, mem_keys_iff_lookup, lookup_put]
  by_cases hk : k' = k
  · simp [hk]
  · simp [hk]

end

section
variable {S B A N : Type}

theorem putAll_lookup (key : S → String) (es : List (S × B)) (o : JSObject B) (k : String) :
    List.lookup k (es.foldl (fun o e => JSObject.put o (key e.1) e.2) o) =
      (List.lookup k (es.reverse.map (fun e => (key e.1, e.2)))).or (List.lookup k o) := by
  induction es generalizing o with
  | nil => simp
  | cons e es ih =>
    rw [List.foldl_cons, ih, lookup_put, List.reverse_cons, List.map_append, List.lookup_append,
      List.map_cons, List.map_nil, lookup_cons_eq, List.lookup_nil]
    cases List.lookup k (List.map (fun e => (key e.1, e.2)) es.reverse) with
    | some w => simp
    | none =>
      by_cases hk : k = key e.1
      · simp [hk]
      · simp [hk]

theorem putAll_nodup (key : S → String) (es : List (S × B)) (o : JSObject B)
    (h : (o.map Prod.fst).Nodup) :
    ((es.foldl (fun o e => JSObject.put o (key e.1) e.2) o).map Prod.fst).Nodup := by
  induction es generalizing o with
  | nil => exact h
  | cons e es ih =>
    rw [List.foldl_cons]
    exact ih _ (keys_nodup_put o _ _ h)

theorem putAll_length_le (key : S → String) (es : List (S × B)) (o : JSObject B) :
    (es.foldl (fun o e => JSObject.put o (key e.1) e.2) o).length ≤ o.length + es.length := by
  induction es generalizing o with
  | nil => simp
  | cons e es ih =>
    rw [List.foldl_cons, List.length_cons]
    have h1 := ih (JSObject.put o (key e.1) e.2)
    have h2 := length_put_le o (key e.1) e.2
    omega

/-- A repeated key costs a property: the object is strictly smaller than the
number of assignments. -/
theorem putAll_length_lt (key : S → String) (es : List (S × B)) (o : JSObject B)
    (h : (∃ e ∈ es, key e.1 ∈ o.map Prod.fst) ∨ ¬ (es.map (fun e => key e.1)).Nodup) :
    (es.foldl (fun o e => JSObject.put o (key e.1) e.2) o).length < o.length + es.length := by
  induction es generalizing o with
  | nil =>
    rcases h with ⟨e, he, _⟩ | h
    · cases he
    · exact absurd List.nodup_nil h
  | cons e es ih =>
    rw [List.foldl_cons, List.length_cons]
    by_cases hmem : key e.1 ∈ o.map Prod.fst
    · have h1 := putAll_length_le key es (JSObject.put o (key e.1) e.2)
      have h2 := length_put_of_mem o (key e.1) e.2 hmem
      omega
    · have h2 := length_put_le o (key e.1) e.2
      have h3 : (∃ e' ∈ es, key e'.1 ∈ (JSObject.put o (key e.1) e.2).map Prod.fst) ∨
          ¬ (es.map (fun e => key e.1)).Nodup := by
        rcases h with ⟨e', he', hk'⟩ | h
        · rcases List.mem_cons.mp he' with rfl | he'
          · exact absurd hk' hmem
          · exact Or.inl ⟨e', he', (mem_keys_put o _ _ _).mpr (Or.inr hk')⟩
        · rw [List.map_cons, List.nodup_cons] at h
          by_cases hin : key e.1 ∈ es.map (fun e => key e.1)
          · obtain ⟨e', he', hk'⟩ := List.mem_map.mp hin
            exact Or.inl ⟨e', he', (mem_keys_put o _ _ _).mpr (Or.inl hk')⟩
          · exact Or.inr (fun hnd => h ⟨hin, hnd⟩)
      have h1 := ih (JSObject.put o (key e.1) e.2) h3
      omega

/-- Distinct keys that are no array indices are appended in order. -/
theorem putAll_ordered (key : S → String) (es : List (S × B)) (o : JSObject B)
    (hnd : (es.map (fun e => key e.1)).Nodup)
    (hidx : ∀ e ∈ es, arrayIndex (key e.1) = none)
    (hnew : ∀ e ∈ es, key e.1 ∉ o.map Prod.fst) :
    es.foldl (fun o e => JSObject.put o (key e.1) e.2) o =
      o ++ es.map (fun e => (key e.1, e.2)) := by
  induction es generalizing o with
  | nil => simp
  | cons e es ih =>
    rw [List.map_cons, List.nodup_cons] at hnd
    rw [List.foldl_cons, put_of_new o _ _ (hnew e (List.mem_cons_self _ _))
      (hidx e (List.mem_cons_self _ _)), ih _ hnd.2
      (fun e' he' => hidx e' (List.mem_cons_of_mem _ he'))]
    · simp
    · intro e' he' hin
      rw [List.map_append, List.mem_append] at hin
      rcases hin with hin | hin
      · exact hnew e' (List.mem_cons_of_mem _ he') hin
      · simp only [List.map_cons, List.map_nil, List.mem_singleton] at hin
        exact hnd.1 (List.mem_map.mpr ⟨e', he', hin⟩)

/-- The loop of the decoder on what the loop of the encoder wrote: it makes one
assignment per wire entry, in wire order, and stops at the end of the entries. -/
theorem readEntries_writeEntries (c : SubCodecs S B A N) (key : S → String)
    (network : Option N) (es : List (S × B)) :
    ∀ (bw out : Bytes), writeEntries c es bw = some out →
    (∀ e ∈ es, ∀ sb, c.scriptBytes (some e.1) = some sb →
      ∀ tail, c.scriptFromBuffer (sb ++ tail) network = some (e.1, tail)) →
    (∀ e ∈ es, ∀ bb, c.balancesBytes e.2 = some bb →
      ∀ tail, c.balancesFromBuffer (bb ++ tail) = some (e.2, tail)) →
    ∃ eb, out = bw ++ eb ∧ ∀ (rest : Bytes) (o : JSObject B),
      readEntries c key network es.length (eb ++ rest) o =
        some (es.foldl (fun o e => JSObject.put o (key e.1) e.2) o, rest) := by
  induction es with
  | nil =>
    intro bw out h _ _
    simp only [writeEntries, Option.some.injEq] at h
    subst h
    exact ⟨[], by simp, fun rest o => rfl⟩
  | cons e es ih =>
    intro bw out h hS hB
    simp only [writeEntries, writeCScript, writeCBalances, Option.bind_eq_bind,
      Option.bind_eq_some, Option.map_eq_some'] at h
    obtain ⟨_, ⟨sb, hsb, rfl⟩, _, ⟨bb, hbb, rfl⟩, h⟩ := h
    obtain ⟨eb, rfl, hdec⟩ := ih _ out h
      (fun e' he' => hS e' (List.mem_cons_of_mem _ he'))
      (fun e' he' => hB e' (List.mem_cons_of_mem _ he'))
    refine ⟨sb ++ (bb ++ eb), by simp, fun rest o => ?_⟩
    have h1 := hS e (List.mem_cons_self _ _) sb hsb
    have h2 := hB e (List.mem_cons_self _ _) bb hbb
    simp only [List.length_cons, readEntries, List.append_assoc, h1, h2, hdec,
      Option.bind_eq_bind, Option.some_bind, List.foldl_cons]

end

/-- C11 as stated fails for the UtxosToAccount record with the two entries
`([1], [5])` and `([1], [6])` (length-framed sub-codecs, the key of a script is
its hex digits): the payload holds the count 2 and two well-formed entries
with the same script, and `UtxosToAccount.fromBuffer` returns a collection
with one entry, the first balances overwritten by the second. -/
theorem UtxosToAccount_same_script_overwritten :
    UtxosToAccount.toBuffer lpCodecs ⟨[([1], [5]), ([1], [6])]⟩ =
        some ([68, 102, 84, 120, 85] ++ [2, 1, 1, 1, 5, 1, 1, 1, 6]) ∧
      UtxosToAccount.fromBuffer lpCodecs bufToHex [2, 1, 1, 1, 5, 1, 1, 1, 6] none =
        some (⟨[("01", [6])]⟩, []) := by
  decide

section
variable {S B A N : Type}

/-- C11, amended. Account-list decode makes one assignment `o[script] =
balances` per wire entry. For a payload whose varint count is `n` followed by
`n` well-formed (script, balances) entries, `UtxosToAccount.fromBuffer` (and
likewise the `to` list of `AccountToAccount.fromBuffer` and the `from` list of
`AddPoolLiquidity.fromBuffer`, whose loop decodes the scripts without the
network) returns an object that has one property per distinct script key, each
holding the balances of the last wire entry with that key; it has exactly the
`n` entries in wire order when the `n` keys are pairwise distinct and none is
an array index, at most `n` entries in general, and fewer than `n` when two
entries carry the same script key. -/
theorem account_list_decode (c : SubCodecs S B A N) (key : S → String) (network : Option N)
    (entries : List (S × B)) (v eb : Bytes)
    (hn : entries.length < 2 ^ 53)
    (hv : varintBufNum entries.length = some v)
    (henc : writeEntries c entries [] = some eb)
    (hS : ∀ e ∈ entries, ∀ sb, c.scriptBytes (some e.1) = some sb →
      ∀ tail, c.scriptFromBuffer (sb ++ tail) network = some (e.1, tail))
    (hB : ∀ e ∈ entries, ∀ bb, c.balancesBytes e.2 = some bb →
      ∀ tail, c.balancesFromBuffer (bb ++ tail) = some (e.2, tail)) :
    ∃ obj : JSObject B,
      (∀ rest, UtxosToAccount.fromBuffer c key (v ++ eb ++ rest) network = some (⟨obj⟩, rest)) ∧
      (∀ (from_ : S) (fb rest : Bytes),
        (∀ tail, c.scriptFromBuffer (fb ++ tail) network = some (from_, tail)) →
        AccountToAccount.fromBuffer c key (fb ++ (v ++ eb) ++ rest) network =
          some (⟨from_, obj⟩, rest)) ∧
      ((∀ e ∈ entries, ∀ sb, c.scriptBytes (some e.1) = some sb →
          ∀ tail, c.scriptFromBuffer (sb ++ tail) none = some (e.1, tail)) →
        ∀ (share : S) (sb rest : Bytes),
        (∀ tail, c.scriptFromBuffer (sb ++ tail) network = some (share, tail)) →
        AddPoolLiquidity.fromBuffer c key (v ++ eb ++ sb ++ rest) network =
          some (⟨obj, share⟩, rest)) ∧
      (obj.map Prod.fst).Nodup ∧
      (∀ k, List.lookup k obj =
        List.lookup k (entries.reverse.map (fun e => (key e.1, e.2)))) ∧
      obj.length ≤ entries.length ∧
      (¬ (entries.map (fun e => key e.1)).Nodup → obj.length < entries.length) ∧
      ((entries.map (fun e => key e.1)).Nodup →
        (∀ e ∈ entries, arrayIndex (key e.1) = none) →
        obj = entries.map (fun e => (key e.1, e.2))) := by
  obtain ⟨eb', heb, hdec⟩ := readEntries_writeEntries c key network entries [] eb henc hS hB
  simp only [List.nil_append] at heb
  subst heb
  refine ⟨entries.foldl (fun o e => JSObject.put o (key e.1) e.2) [], ?_, ?_, ?_, ?_, ?_, ?_,
    ?_, ?_⟩
  · intro rest
    simp only [UtxosToAccount.fromBuffer, List.append_assoc,
      readVarintNum_varintBufNum _ _ _ hn hv, hdec, Option.bind_eq_bind, Option.some_bind,
      Option.pure_def]
  · intro from_ fb rest hfrom
    simp only [AccountToAccount.fromBuffer, List.append_assoc, hfrom,
      readVarintNum_varintBufNum _ _ _ hn hv, hdec, Option.bind_eq_bind, Option.some_bind,
      Option.pure_def]
  · intro hS' share sb rest hshare
    obtain ⟨eb'', heb'', hdec'⟩ := readEntries_writeEntries c key none entries [] eb henc hS' hB
    simp only [List.nil_append] at heb''
    subst heb''
    simp only [AddPoolLiquidity.fromBuffer, List.append_assoc,
      readVarintNum_varintBufNum _ _ _ hn hv, hdec', hshare, Option.bind_eq_bind,
      Option.some_bind, Option.pure_def]
  · exact putAll_nodup key entries [] List.nodup_nil
  · intro k
    rw [putAll_lookup]
    simp
  · simpa using putAll_length_le key entries []
  · intro hdup
    simpa using putAll_length_lt key entries [] (Or.inr hdup)
  · intro hnd hidx
    simpa using putAll_ordered key entries [] hnd hidx (fun _ _ h => by simp at h)

end

/-- Witness for C11: two entries with the distinct scripts `[1]` and `[2]`,
length-framed sub-codecs, the key of a script being its hex digits. -/
theorem account_list_decode_witness :
    (([([1], [5]), ([2], [6])] : List (Bytes × Bytes)).length < 2 ^ 53 ∧
      varintBufNum ([([1], [5]), ([2], [6])] : List (Bytes × Bytes)).length = some [2] ∧
      writeEntries lpCodecs [([1], [5]), ([2], [6])] [] = some [1, 1, 1, 5, 1, 2, 1, 6] ∧
      (∀ e ∈ ([([1], [5]), ([2], [6])] : List (Bytes × Bytes)), ∀ sb,
        lpCodecs.scriptBytes (some e.1) = some sb →
        ∀ tail, lpCodecs.scriptFromBuffer (sb ++ tail) none = some (e.1, tail)) ∧
      (∀ e ∈ ([([1], [5]), ([2], [6])] : List (Bytes × Bytes)), ∀ bb,
        lpCodecs.balancesBytes e.2 = some bb →
        ∀ tail, lpCodecs.balancesFromBuffer (bb ++ tail) = some (e.2, tail))) ∧
    ∃ obj : JSObject Bytes,
      (∀ rest, UtxosToAccount.fromBuffer lpCodecs bufToHex
        ([2] ++ [1, 1, 1, 5, 1, 2, 1, 6] ++ rest) none = some (⟨obj⟩, rest)) ∧
      obj = [("01", [5]), ("02", [6])] := by
  have hS : ∀ e ∈ ([([1], [5]), ([2], [6])] : List (Bytes × Bytes)), ∀ sb,
      lpCodecs.scriptBytes (some e.1) = some sb →
      ∀ tail, lpCodecs.scriptFromBuffer (sb ++ tail) none = some (e.1, tail) := by
    intro e he sb hsb tail
    simp only [List.mem_cons, List.mem_singleton, List.not_mem_nil, or_false] at he
    rcases he with rfl | rfl <;>
    · simp only [lpCodecs, varintBufNum, List.length_singleton] at hsb
      simp only [Nat.reduceLT, if_true, Option.map_some', Option.some.injEq] at hsb
      subst hsb
      simp [lpCodecs, readVarintNum, read]
  have hB : ∀ e ∈ ([([1], [5]), ([2], [6])] : List (Bytes × Bytes)), ∀ bb,
      lpCodecs.balancesBytes e.2 = some bb →
      ∀ tail, lpCodecs.balancesFromBuffer (bb ++ tail) = some (e.2, tail) := by
    intro e he bb hbb tail
    simp only [List.mem_cons, List.mem_singleton, List.not_mem_nil, or_false] at he
    rcases he with rfl | rfl <;>
    · simp only [lpCodecs, varintBufNum, List.length_singleton] at hbb
      simp only [Nat.reduceLT, if_true, Option.map_some', Option.some.injEq] at hbb
      subst hbb
      simp [lpCodecs, readVarintNum, read]
  refine ⟨⟨by decide, by decide, by decide, hS, hB⟩, ?_⟩
  obtain ⟨obj, h1, _, _, _, _, _, _, h8⟩ := account_list_decode lpCodecs bufToHex none
    [([1], [5]), ([2], [6])] [2] [1, 1, 1, 5, 1, 2, 1, 6] (by decide) (by decide) (by decide)
    hS hB
  exact ⟨obj, h1, h8 (by decide) (by decide)⟩

/-! ## C12: the range of a fixed-point amount -/

section
variable {α β : Type}

theorem selfDelimiting_pure (v : α) :
    SelfDelimiting (fun br => (Pure.pure (v, br) : Option (α × Bytes))) := by
  intro b w rest h
  simp only [Option.pure_def, Option.some.injEq, Prod.mk.injEq] at h
  obtain ⟨rfl, rfl⟩ := h
  exact ⟨[], rfl, fun tail => rfl⟩

theorem selfDelimiting_bind {D : Bytes → Option (α × Bytes)}
    {G : α × Bytes → Option (β × Bytes)} (hD : SelfDelimiting D)
    (hG : ∀ a, SelfDelimiting (fun br => G (a, br))) :
    SelfDelimiting (fun b => D b >>= G) := by
  intro b v rest h
  simp only [Option.bind_eq_bind, Option.bind_eq_some] at h
  obtain ⟨⟨a, mid⟩, h1, h2⟩ := h
  obtain ⟨u1, rfl, s1⟩ := hD b a mid h1
  obtain ⟨u2, rfl, s2⟩ := hG a mid v rest h2
  refine ⟨u1 ++ u2, by simp, fun tail => ?_⟩
  simp only [List.append_assoc, Option.bind_eq_bind, s1, Option.some_bind]
  exact s2 tail

theorem selfDelimiting_mapFst {D : Bytes → Option (α × Bytes)} (f : α → β)
    (hD : SelfDelimiting D) : SelfDelimiting (fun b => (D b).map (fun p => (f p.1, p.2))) := by
  intro b v rest h
  simp only [Option.map_eq_some', Prod.mk.injEq] at h
  obtain ⟨⟨a, mid⟩, h1, rfl, rfl⟩ := h
  obtain ⟨u1, rfl, s1⟩ := hD b a mid h1
  exact ⟨u1, rfl, fun tail => by simp only [s1, Option.map_some']⟩

theorem selfDelimiting_filterMap {D : Bytes → Option (α × Bytes)} (g : α → Option β)
    (hD : SelfDelimiting D) :
    SelfDelimiting (fun b => (D b).bind (fun p => (g p.1).map (fun n => (n, p.2)))) := by
  intro b v rest h
  simp only [Option.bind_eq_some, Option.map_eq_some', Prod.mk.injEq] at h
  obtain ⟨⟨a, mid⟩, h1, n, hn, rfl, rfl⟩ := h
  obtain ⟨u1, rfl, s1⟩ := hD b a mid h1
  exact ⟨u1, rfl, fun tail => by simp only [s1, Option.some_bind, hn, Option.map_some']⟩

/-- A decoder of a self-delimiting encoding that consumes a whole payload
fails on every strict prefix of the payload. -/
theorem selfDelimiting_truncated {D : Bytes → Option (α × Bytes)} (hD : SelfDelimiting D)
    (payload p : Bytes) (v : α) (hfull : D payload = some (v, []))
    (hp : p <+: payload) (hne : p ≠ payload) : D p = none := by
  cases hres : D p with
  | none => rfl
  | some r =>
    obtain ⟨w, rest⟩ := r
    obtain ⟨used, rfl, s⟩ := hD p w rest hres
    obtain ⟨q, rfl⟩ := hp
    have := s (rest ++ q)
    rw [← List.append_assoc, hfull] at this
    simp only [Option.some.injEq, Prod.mk.injEq] at this
    have hq : q = [] := (List.append_eq_nil.mp this.2.symm).2
    subst hq
    simp at hne

end

theorem selfDelimiting_read (n : Nat) : SelfDelimiting (read n) := by
  intro b v rest h
  unfold read at h
  split_ifs at h with hn
  simp only [Option.some.injEq, Prod.mk.injEq] at h
  obtain ⟨rfl, rfl⟩ := h
  refine ⟨b.take n, (List.take_append_drop n b).symm, fun tail => ?_⟩
  exact read_append_of_length n _ tail (List.length_take_of_le hn)

theorem selfDelimiting_readUInt8 : SelfDelimiting readUInt8 := by
  intro b v rest h
  cases b with
  | nil => simp [readUInt8] at h
  | cons x xs =>
    simp only [readUInt8, Option.some.injEq, Prod.mk.injEq] at h
    obtain ⟨rfl, rfl⟩ := h
    exact ⟨[x], rfl, fun tail => rfl⟩

theorem selfDelimiting_readUInt16LE : SelfDelimiting readUInt16LE :=
  selfDelimiting_mapFst fromLE (selfDelimiting_read 2)

theorem selfDelimiting_readUInt32LE : SelfDelimiting readUInt32LE :=
  selfDelimiting_mapFst fromLE (selfDelimiting_read 4)

theorem selfDelimiting_readUInt64LEBN : SelfDelimiting readUInt64LEBN :=
  selfDelimiting_mapFst fromLE (selfDelimiting_read 8)

theorem selfDelimiting_readUInt64LENum : SelfDelimiting readUInt64LENum :=
  selfDelimiting_filterMap BN.toNumber selfDelimiting_readUInt64LEBN

theorem selfDelimiting_cons {α : Type} {D : Bytes → Option (α × Bytes)} (x : Nat)
    (hD : SelfDelimiting D) (E : Bytes → Option (α × Bytes))
    (hE : ∀ xs, E (x :: xs) = D xs) :
    ∀ xs v rest, E (x :: xs) = some (v, rest) →
      ∃ used, x :: xs = used ++ rest ∧ ∀ tail, E (used ++ tail) = some (v, tail) := by
  intro xs v rest h
  rw [hE] at h
  obtain ⟨u, rfl, s⟩ := hD xs v rest h
  exact ⟨x :: u, rfl, fun tail => by rw [List.cons_append, hE]; exact s tail⟩

theorem selfDelimiting_readVarintNum : SelfDelimiting readVarintNum := by
  intro b v rest h
  cases b with
  | nil => simp [readVarintNum] at h
  | cons x xs =>
    by_cases h1 : x = 0xFD
    · subst h1
      exact selfDelimiting_cons 0xFD selfDelimiting_readUInt16LE readVarintNum
        (fun ys => by simp [readVarintNum]) xs v rest h
    · by_cases h2 : x = 0xFE
      · subst h2
        exact selfDelimiting_cons 0xFE selfDelimiting_readUInt32LE readVarintNum
          (fun ys => by simp [readVarintNum]) xs v rest h
      · by_cases h3 : x = 0xFF
        · subst h3
          exact selfDelimiting_cons 0xFF selfDelimiting_readUInt64LENum readVarintNum
            (fun ys => by simp [readVarintNum]) xs v rest h
        · simp only [readVarintNum, h1, h2, h3, if_false, Option.some.injEq,
            Prod.mk.injEq] at h
          obtain ⟨rfl, rfl⟩ := h
          exact ⟨[x], rfl, fun tail => by simp [readVarintNum, h1, h2, h3]⟩

section
variable {S B A N : Type}

theorem selfDelimiting_readEntries (c : SubCodecs S B A N) (key : S → String)
    (network : Option N)
    (hS : SelfDelimiting (fun br => c.scriptFromBuffer br network))
    (hB : SelfDelimiting c.balancesFromBuffer) (count : Nat) :
    ∀ o, SelfDelimiting (fun br => readEntries c key network count br o) := by
  induction count with
  | zero =>
    intro o
    exact selfDelimiting_pure o
  | succ count ih =>
    intro o
    unfold readEntries
    refine selfDelimiting_bind hS (fun a => ?_)
    refine selfDelimiting_bind hB (fun b => ?_)
    exact ih _

/-- Every `fromBuffer` reads a self-delimiting encoding when the sub-codecs do;
stated for the unread bytes: a `fromBuffer` that consumes a whole payload fails
on every strict prefix of it. -/
theorem fromBuffer_truncated (c : SubCodecs S B A N) (key : S → String) (network : Option N)
    (hS : ∀ net, SelfDelimiting (fun br => c.scriptFromBuffer br net))
    (hB : SelfDelimiting c.balancesFromBuffer)
    (hA : ∀ net, SelfDelimiting (fun br => c.accountsFromBuffer br net))
    (v : Variant) (payload p : Bytes)
    (hfull : v.fromBufferRest c key network payload = some [])
    (hp : p <+: payload) (hne : p ≠ payload) :
    v.fromBufferRest c key network p = none := by
  have key_fact : ∀ {α : Type} (D : Bytes → Option (α × Bytes)), SelfDelimiting D →
      (D payload).map Prod.snd = some [] → (D p).map Prod.snd = none := by
    intro α D hD h
    simp only [Option.map_eq_some'] at h
    obtain ⟨⟨w, r⟩, h1, h2⟩ := h
    simp only at h2
    subst h2
    rw [selfDelimiting_truncated hD payload p w h1 hp hne]
    rfl
  cases v
  case' CreateMasternode =>
    refine key_fact CustomTx.CreateMasternode.fromBuffer ?_ hfull
  case' ResignMasternode =>
    refine key_fact CustomTx.ResignMasternode.fromBuffer ?_ hfull
  case' CreateToken =>
    refine key_fact CustomTx.CreateToken.fromBuffer ?_ hfull
  case' MintToken =>
    refine key_fact (fun br => CustomTx.MintToken.fromBuffer c br) ?_ hfull
  case' UpdateToken =>
    refine key_fact CustomTx.UpdateToken.fromBuffer ?_ hfull
  case' UpdateTokenAny =>
    refine key_fact CustomTx.UpdateTokenAny.fromBuffer ?_ hfull
  case' CreatePoolPair =>
    refine key_fact (fun br => CustomTx.CreatePoolPair.fromBuffer c br network) ?_ hfull
  case' UpdatePoolPair =>
    refine key_fact (fun br => CustomTx.UpdatePoolPair.fromBuffer c br network) ?_ hfull
  case' PoolSwap =>
    refine key_fact (fun br => CustomTx.PoolSwap.fromBuffer c br network) ?_ hfull
  case' AddPoolLiquidity =>
    refine key_fact (fun br => CustomTx.AddPoolLiquidity.fromBuffer c key br network) ?_ hfull
  case' RemovePoolLiquidity =>
    refine key_fact (fun br => CustomTx.RemovePoolLiquidity.fromBuffer c br network) ?_ hfull
  case' UtxosToAccount =>
    refine key_fact (fun br => CustomTx.UtxosToAccount.fromBuffer c key br network) ?_ hfull
  case' AccountToUtxos =>
    refine key_fact (fun br => CustomTx.AccountToUtxos.fromBuffer c br network) ?_ hfull
  case' AccountToAccount =>
    refine key_fact (fun br => CustomTx.AccountToAccount.fromBuffer c key br network) ?_ hfull
  case' SetGovVariable =>
    refine key_fact CustomTx.SetGovVariable.fromBuffer ?_ hfull
  case' AnyAccountsToAccounts =>
    refine key_fact (fun br => CustomTx.AnyAccountsToAccounts.fromBuffer c br network) ?_ hfull
  all_goals first
    | unfold CustomTx.CreateMasternode.fromBuffer
    | unfold CustomTx.ResignMasternode.fromBuffer
    | unfold CustomTx.CreateToken.fromBuffer
    | unfold CustomTx.MintToken.fromBuffer
    | unfold CustomTx.UpdateToken.fromBuffer
    | unfold CustomTx.UpdateTokenAny.fromBuffer
    | unfold CustomTx.CreatePoolPair.fromBuffer
    | unfold CustomTx.UpdatePoolPair.fromBuffer
    | unfold CustomTx.PoolSwap.fromBuffer
    | unfold CustomTx.AddPoolLiquidity.fromBuffer
    | unfold CustomTx.RemovePoolLiquidity.fromBuffer
    | unfold CustomTx.UtxosToAccount.fromBuffer
    | unfold CustomTx.AccountToUtxos.fromBuffer
    | unfold CustomTx.AccountToAccount.fromBuffer
    | unfold CustomTx.SetGovVariable.fromBuffer
    | unfold CustomTx.AnyAccountsToAccounts.fromBuffer
  all_goals
    repeat (first
      | exact selfDelimiting_pure _
      | exact selfDelimiting_readEntries c key _ (hS _) hB _ _
      | refine selfDelimiting_bind selfDelimiting_readVarintNum (fun _ => ?_)
      | refine selfDelimiting_bind (selfDelimiting_read _) (fun _ => ?_)
      | refine selfDelimiting_bind selfDelimiting_readUInt8 (fun _ => ?_)
      | refine selfDelimiting_bind selfDelimiting_readUInt32LE (fun _ => ?_)
      | refine selfDelimiting_bind selfDelimiting_readUInt64LENum (fun _ => ?_)
      | refine selfDelimiting_bind (hS _) (fun _ => ?_)
      | refine selfDelimiting_bind hB (fun _ => ?_)
      | refine selfDelimiting_bind (hA _) (fun _ => ?_)
      | refine selfDelimiting_bind (selfDelimiting_readEntries c key _ (hS _) hB _ _)
          (fun _ => ?_))

/-- C13, amended. Truncated payloads are rejected whenever the whole payload
is one that `fromBuffer` reads to its end: for every variant, every payload on
which the variant's `fromBuffer` succeeds consuming all bytes, and every
strict prefix `p` of that payload, `fromBuffer` on `p` fails and returns no
record (the sub-codecs being decoders of self-delimiting encodings). In
particular `ResignMasternode.fromBuffer` fails on fewer than 32 bytes, and
`AccountToUtxos.fromBuffer` fails on a payload that ends after the balances,
with the `mintingOutputsStart` bytes missing. -/
theorem truncated_payload_rejected (c : SubCodecs S B A N) (key : S → String)
    (network : Option N)
    (hS : ∀ net, SelfDelimiting (fun br => c.scriptFromBuffer br net))
    (hB : SelfDelimiting c.balancesFromBuffer)
    (hA : ∀ net, SelfDelimiting (fun br => c.accountsFromBuffer br net)) :
    (∀ (v : Variant) (payload p : Bytes),
      v.fromBufferRest c key network payload = some [] → p <+: payload → p ≠ payload →
      v.fromBufferRest c key network p = none) ∧
    (∀ p : Bytes, p.length < 32 → ResignMasternode.fromBuffer p = none) ∧
    (∀ (from_ : S) (balances : B) (sb bb : Bytes),
      (∀ tail, c.scriptFromBuffer (sb ++ tail) network = some (from_, tail)) →
      (∀ tail, c.balancesFromBuffer (bb ++ tail) = some (balances, tail)) →
      AccountToUtxos.fromBuffer c (sb ++ bb) network = none) := by
  refine ⟨fun v payload p hfull hp hne =>
    fromBuffer_truncated c key network hS hB hA v payload p hfull hp hne, ?_, ?_⟩
  · intro p hlen
    have : ¬ 32 ≤ p.length := by omega
    simp [ResignMasternode.fromBuffer, read, this]
  · intro from_ balances sb bb hfrom hbal
    have h1 := hbal []
    rw [List.append_nil] at h1
    simp [AccountToUtxos.fromBuffer, hfrom, h1, readVarintNum]

end

/-- The script decoder of `lpCodecs` reads a self-delimiting encoding. -/
theorem lpCodecs_script_selfDelimiting (net : Option Unit) :
    SelfDelimiting (fun br => lpCodecs.scriptFromBuffer br net) := by
  unfold lpCodecs
  refine selfDelimiting_bind selfDelimiting_readVarintNum (fun a => ?_)
  exact selfDelimiting_read a

/-- The balances decoder of `lpCodecs` reads a self-delimiting encoding. -/
theorem lpCodecs_balances_selfDelimiting : SelfDelimiting lpCodecs.balancesFromBuffer := by
  unfold lpCodecs
  refine selfDelimiting_bind selfDelimiting_readVarintNum (fun a => ?_)
  exact selfDelimiting_read a

/-- The account-map decoder of `lpCodecs` reads a self-delimiting encoding. -/
theorem lpCodecs_accounts_selfDelimiting (net : Option Unit) :
    SelfDelimiting (fun br => lpCodecs.accountsFromBuffer br net) := by
  unfold lpCodecs
  refine selfDelimiting_bind selfDelimiting_readVarintNum (fun a => ?_)
  exact selfDelimiting_read a

/-- C13 as stated fails for UpdateTokenAny: of the post-tag bytes of the
encoding of `{tokenTx: '0123456789abcdef0123456789abcdef', symbol: 'BTC',
name: 'Bitcoin', decimal: 8, limit: 0, mintable: 1, tradeable: 0, isDAT: 1}`
the strict prefix without the last two bytes is decoded by
`UpdateTokenAny.fromBuffer` without error. -/
theorem UpdateTokenAny_truncated_payload_decoded :
    UpdateTokenAny.toBuffer ⟨"0123456789abcdef0123456789abcdef", "BTC", "Bitcoin", 8, 0, 1, 0, 1⟩ =
        some ([68, 102, 84, 120, 110] ++
          ([48, 49, 50, 51, 52, 53, 54, 55, 56, 57, 97, 98, 99, 100, 101, 102] ++
            [48, 49, 50, 51, 52, 53, 54, 55, 56, 57, 97, 98, 99, 100, 101, 102] ++
            [3, 66, 84, 67, 7, 66, 105, 116, 99, 111, 105, 110, 8, 0, 0, 0, 0, 0, 0, 0, 0, 1] ++
            [0, 1])) ∧
      UpdateTokenAny.fromBuffer
          ([48, 49, 50, 51, 52, 53, 54, 55, 56, 57, 97, 98, 99, 100, 101, 102] ++
            [48, 49, 50, 51, 52, 53, 54, 55, 56, 57, 97, 98, 99, 100, 101, 102] ++
            [3, 66, 84, 67, 7, 66, 105, 116, 99, 111, 105, 110, 8, 0, 0, 0, 0, 0, 0, 0, 0, 1]) =
        some (⟨"3031323334353637383961626364656630313233343536373839616263646566",
          ⟨"BTC", "Bitcoin", 8, 0, 1⟩⟩, []) := by
  decide

/-- Witness for C13: the CreateToken payload of the BTC scenario is read to
its end, and its first ten bytes are a strict prefix. -/
theorem truncated_payload_rejected_witness :
    ((∀ net, SelfDelimiting (fun br => lpCodecs.scriptFromBuffer br net)) ∧
      SelfDelimiting lpCodecs.balancesFromBuffer ∧
      (∀ net, SelfDelimiting (fun br => lpCodecs.accountsFromBuffer br net)) ∧
      Variant.CreateToken.fromBufferRest lpCodecs bufToHex none
          [3, 66, 84, 67, 7, 66, 105, 116, 99, 111, 105, 110, 8, 0, 0, 0, 0, 0, 0, 0, 0, 1] =
        some [] ∧
      ([3, 66, 84, 67, 7, 66, 105, 116, 99, 111] : Bytes) <+:
        [3, 66, 84, 67, 7, 66, 105, 116, 99, 111, 105, 110, 8, 0, 0, 0, 0, 0, 0, 0, 0, 1] ∧
      ([3, 66, 84, 67, 7, 66, 105, 116, 99, 111] : Bytes) ≠
        [3, 66, 84, 67, 7, 66, 105, 116, 99, 111, 105, 110, 8, 0, 0, 0, 0, 0, 0, 0, 0, 1]) ∧
    Variant.CreateToken.fromBufferRest lpCodecs bufToHex none
      [3, 66, 84, 67, 7, 66, 105, 116, 99, 111] = none :=
  ⟨⟨lpCodecs_script_selfDelimiting, lpCodecs_balances_selfDelimiting,
      lpCodecs_accounts_selfDelimiting, by decide, by decide, by decide⟩,
    (truncated_payload_rejected lpCodecs bufToHex none lpCodecs_script_selfDelimiting
      lpCodecs_balances_selfDelimiting lpCodecs_accounts_selfDelimiting).1 Variant.CreateToken
      [3, 66, 84, 67, 7, 66, 105, 116, 99, 111, 105, 110, 8, 0, 0, 0, 0, 0, 0, 0, 0, 1]
      [3, 66, 84, 67, 7, 66, 105, 116, 99, 111] (by decide) (by decide) (by decide)⟩

/-! ## C14: records with absent fields -/

section
variable {S B A N : Type}

end

/-- In the table, two entries whose tags have the same bytes have the same name. -/
theorem customTxType_tag_injective :
    ∀ p ∈ customTxType, ∀ q ∈ customTxType, newBuffer p.2 = newBuffer q.2 → p.1 = q.1 := by
  decide

section
variable {S B A N : Type}

/-- The output of a successful `toBuffer` is the signature, the bytes of the
variant's tag and a tail. -/
theorem Record.toBuffer_eq_header (c : SubCodecs S B A N) (r : Record S B A) (out : Bytes)
    (h : Record.toBuffer c r = some out) :
    ∃ tag tl, (r.typeName, tag) ∈ customTxType ∧
      out = [0x44, 0x66, 0x54, 0x78] ++ newBuffer tag ++ tl := by
  have key : ∃ tag tl, customTxType.lookup r.typeName = some tag ∧
      out = [0x44, 0x66, 0x54, 0x78] ++ newBuffer tag ++ tl := by
    cases r <;>
    · refine header_of_appends _ _ ?_ out h
      repeat (first
        | exact appends_pure
        | exact appends_write _
        | exact appends_writeUInt8 _
        | exact appends_writeUInt32LE _
        | exact appends_writeUInt64LEBN _
        | exact appends_writeUInt64LEBNQ _
        | exact appends_writeVarintNum _
        | exact appends_writeCScript _ _
        | exact appends_writeCBalances _ _
        | exact appends_writeCAccounts _ _
        | exact appends_writeEntries _ _
        | refine Appends.bind ?_ ?_
        | refine Appends.bindVal _ (fun _ => ?_))
  obtain ⟨tag, tl, htag, hout⟩ := key
  refine ⟨tag, tl, ?_, hout⟩
  cases r <;> (cases htag; simp only [Record.typeName]; decide)

/-- C15. The tag table is one-to-one: every value of `customTxType` is a
single ASCII character, written as one byte; no two property names are equal
and no two tags are equal; hence two successful encodings with the same fifth
byte are encodings of the same variant. -/
theorem customTxType_one_to_one :
    (∀ p ∈ customTxType, IsAscii p.2 ∧ p.2.length = 1 ∧ (newBuffer p.2).length = 1) ∧
    (customTxType.map Prod.fst).Nodup ∧
    (customTxType.map Prod.snd).Nodup ∧
    ∀ (c : SubCodecs S B A N) (r₁ r₂ : Record S B A) (out₁ out₂ : Bytes),
      Record.toBuffer c r₁ = some out₁ → Record.toBuffer c r₂ = some out₂ →
      out₁[4]? = out₂[4]? → r₁.typeName = r₂.typeName := by
  refine ⟨by decide, by decide, by decide, ?_⟩
  intro c r₁ r₂ out₁ out₂ h₁ h₂ h
  obtain ⟨t₁, tl₁, m₁, rfl⟩ := Record.toBuffer_eq_header c r₁ out₁ h₁
  obtain ⟨t₂, tl₂, m₂, rfl⟩ := Record.toBuffer_eq_header c r₂ out₂ h₂
  have len : ∀ p ∈ customTxType, (newBuffer p.2).length = 1 := by decide
  have l₁ := len _ m₁
  have l₂ := len _ m₂
  obtain ⟨x₁, e₁⟩ := List.length_eq_one.mp l₁
  obtain ⟨x₂, e₂⟩ := List.length_eq_one.mp l₂
  simp only at e₁ e₂
  rw [e₁, e₂] at h
  simp at h
  exact customTxType_tag_injective _ m₁ _ m₂ (by simp only; rw [e₁, e₂, h])

end

/-- Witness for C15: a CreateToken and a CreateToken encoding share the fifth
byte `T`, and the last part of `customTxType_one_to_one` applies to them. -/
theorem customTxType_one_to_one_witness :
    (Record.toBuffer lpCodecs (Record.CreateToken ⟨"BTC", "Bitcoin", 8, 0, 1⟩) =
        some [68, 102, 84, 120, 84, 3, 66, 84, 67, 7, 66, 105, 116, 99, 111, 105, 110,
          8, 0, 0, 0, 0, 0, 0, 0, 0, 1] ∧
      Record.toBuffer lpCodecs (Record.CreateToken ⟨"A", "B", 0, 0, 0⟩) =
        some [68, 102, 84, 120, 84, 1, 65, 1, 66, 0, 0, 0, 0, 0, 0, 0, 0, 0, 0] ∧
      ([68, 102, 84, 120, 84, 3, 66, 84, 67, 7, 66, 105, 116, 99, 111, 105, 110,
          8, 0, 0, 0, 0, 0, 0, 0, 0, 1] : Bytes)[4]? =
        ([68, 102, 84, 120, 84, 1, 65, 1, 66, 0, 0, 0, 0, 0, 0, 0, 0, 0, 0] : Bytes)[4]?) ∧
    (Record.CreateToken ⟨"BTC", "Bitcoin", 8, 0, 1⟩ : Record Bytes Bytes Bytes).typeName =
      (Record.CreateToken ⟨"A", "B", 0, 0, 0⟩ : Record Bytes Bytes Bytes).typeName :=
  ⟨by decide, customTxType_one_to_one.2.2.2 lpCodecs (Record.CreateToken ⟨"BTC", "Bitcoin", 8, 0, 1⟩)
    (Record.CreateToken ⟨"A", "B", 0, 0, 0⟩)
    [68, 102, 84, 120, 84, 3, 66, 84, 67, 7, 66, 105, 116, 99, 111, 105, 110,
      8, 0, 0, 0, 0, 0, 0, 0, 0, 1]
    [68, 102, 84, 120, 84, 1, 65, 1, 66, 0, 0, 0, 0, 0, 0, 0, 0, 0, 0]
    (by decide) (by decide) (by decide)⟩

/-! ## C16: the number of variants -/

/-- C16 as stated fails: `customTxType` does not have seventeen entries, and
the module does not export seventeen codecs (its seventeenth export is the
table itself). -/
theorem customTxType_not_seventeen :
    customTxType.length ≠ 17 ∧ exportedCodecs.length ≠ 17 ∧ moduleExports.length = 17 := by
  decide

/-- C16, amended. The set of record variants has exactly sixteen members:
`customTxType` has sixteen entries, the module exports sixteen codecs, and the
exported codecs are, in order and up to the case of the first letter, the
property names of `customTxType`; they are the sixteen variants of the
embedding. -/
theorem customTxType_sixteen_variants :
    customTxType.length = 16 ∧ exportedCodecs.length = 16 ∧
    exportedCodecs.map String.decapitalize = customTxType.map Prod.fst ∧
    ∀ r : Record Unit Unit Unit, r.typeName ∈ customTxType.map Prod.fst := by
  refine ⟨by decide, by decide, by decide, ?_⟩
  intro r
  cases r <;> (simp only [Record.typeName]; decide)

/-! ## C17: AnyAccountsToAccounts -/

theorem lookup_anyAccountsToAccounts :
    customTxType.lookup "anyAccountsToAccounts" = some "a" := by decide

theorem newBuffer_a : newBuffer "a" = [0x61] := by decide

section
variable {S B A N : Type}

/-- C17. AnyAccountsToAccounts round trip by composition: for an account-map
sub-codec and a pair of account maps `from`, `to` which the sub-codec encodes
and, from any cursor that starts with the encoding, decodes back while
stopping exactly at the end of the encoding, `AnyAccountsToAccounts.toBuffer`
succeeds and its output is the signature, the tag `a`, the encoding of `from`
and the encoding of `to`; `AnyAccountsToAccounts.fromBuffer` on the bytes after
the prefix (followed by any `rest`) returns `{from, to}`, not swapped, and
consumes exactly those bytes. -/
theorem AnyAccountsToAccounts_roundtrip (c : SubCodecs S B A N)
    (data : AnyAccountsToAccountsData A) (network : Option N) (fb tb rest : Bytes)
    (hfrom : c.accountsBytes data.from_ = some fb)
    (hto : c.accountsBytes data.to_ = some tb)
    (hfromDec : ∀ tail, c.accountsFromBuffer (fb ++ tail) network = some (data.from_, tail))
    (htoDec : ∀ tail, c.accountsFromBuffer (tb ++ tail) network = some (data.to_, tail)) :
    AnyAccountsToAccounts.toBuffer c data = some ([0x44, 0x66, 0x54, 0x78, 0x61] ++ (fb ++ tb)) ∧
      AnyAccountsToAccounts.fromBuffer c (fb ++ tb ++ rest) network = some (data, rest) := by
  constructor
  · simp only [AnyAccountsToAccounts.toBuffer, writeHeader, write, lookup_anyAccountsToAccounts,
      newBuffer_signature, newBuffer_a, writeCAccounts, hfrom, hto, Option.bind_eq_bind,
      Option.some_bind, Option.pure_def, Option.map_some', List.nil_append, List.append_assoc,
      List.cons_append, List.singleton_append]
  · obtain ⟨f, t⟩ := data
    simp only at hfromDec htoDec
    simp only [AnyAccountsToAccounts.fromBuffer, List.append_assoc, hfromDec, htoDec,
      Option.bind_eq_bind, Option.some_bind, Option.pure_def]

end

/-- Witness for C17: the length-framed account maps `[1, 2]` and `[3]`. -/
theorem AnyAccountsToAccounts_roundtrip_witness :
    (lpCodecs.accountsBytes [1, 2] = some [2, 1, 2] ∧
      lpCodecs.accountsBytes [3] = some [1, 3] ∧
      (∀ tail, lpCodecs.accountsFromBuffer ([2, 1, 2] ++ tail) none = some ([1, 2], tail)) ∧
      ∀ tail, lpCodecs.accountsFromBuffer ([1, 3] ++ tail) none = some ([3], tail)) ∧
    AnyAccountsToAccounts.toBuffer lpCodecs ⟨[1, 2], [3]⟩ =
        some ([0x44, 0x66, 0x54, 0x78, 0x61] ++ ([2, 1, 2] ++ [1, 3])) ∧
      AnyAccountsToAccounts.fromBuffer lpCodecs ([2, 1, 2] ++ [1, 3] ++ [9]) none =
        some (⟨[1, 2], [3]⟩, [9]) :=
  ⟨⟨by decide, by decide, fun tail => by simp [lpCodecs, readVarintNum, read],
      fun tail => by simp [lpCodecs, readVarintNum, read]⟩,
    AnyAccountsToAccounts_roundtrip lpCodecs ⟨[1, 2], [3]⟩ none [2, 1, 2] [1, 3] [9]
      (by decide) (by decide) (fun tail => by simp [lpCodecs, readVarintNum, read])
      (fun tail => by simp [lpCodecs, readVarintNum, read])⟩

/-! ## C18: UpdatePoolPair -/

/-- C18 as stated fails at `{pollId: 5, status: 1, commission: 7,
ownerAddress: [9]}` with length-framed scripts: `UpdatePoolPair.fromBuffer` on
the encoded payload returns `pollId` as the string `'5'`
(`br.readUInt32LE().toString()`), which is not the number 5 that was encoded. -/
theorem UpdatePoolPair_pollId_is_string :
    UpdatePoolPair.toBuffer lpCodecs ⟨5, 1, 7, [9]⟩ =
        some ([68, 102, 84, 120, 117] ++ [5, 0, 0, 0, 1, 7, 0, 0, 0, 0, 0, 0, 0, 1, 9]) ∧
      UpdatePoolPair.fromBuffer lpCodecs [5, 0, 0, 0, 1, 7, 0, 0, 0, 0, 0, 0, 0, 1, 9] none =
        some (⟨"5", 1, 7, [9]⟩, []) ∧
      JSValue.string "5" ≠ JSValue.number 5 := by
  decide

theorem lookup_updatePoolPair : customTxType.lookup "updatePoolPair" = some "u" := by decide

theorem newBuffer_u : newBuffer "u" = [0x75] := by decide

section
variable {S B A N : Type}

/-- C18, amended. UpdatePoolPair layout and unscaled commission: for a record
with `pollId` in 0..2^32-1, `status` in 0..255, integer `commission` in
0..2^53-1 and an owner script that the script sub-codec encodes and decodes
back, `UpdatePoolPair.toBuffer` writes after the prefix exactly
`u32LE(pollId)`, `u8(status)`, `u64LE(commission)` with no 10^8 scaling, then
the script; `UpdatePoolPair.fromBuffer` on those bytes returns `status` and
`commission` equal to the encoded integers (commission not divided by 10^8),
the owner script, and as `pollId` the decimal string of the encoded pollId. -/
theorem UpdatePoolPair_layout (c : SubCodecs S B A N) (data : UpdatePoolPairData S)
    (network : Option N) (sb rest : Bytes)
    (hpoll : data.pollId < 2 ^ 32) (hstatus : data.status < 256)
    (hcomm : data.commission < 2 ^ 53)
    (henc : c.scriptBytes (some data.ownerAddress) = some sb)
    (hdec : ∀ tail, c.scriptFromBuffer (sb ++ tail) network = some (data.ownerAddress, tail)) :
    UpdatePoolPair.toBuffer c data =
        some ([0x44, 0x66, 0x54, 0x78, 0x75] ++
          (toLE 4 data.pollId ++ ([data.status] ++ (toLE 8 data.commission ++ sb)))) ∧
      UpdatePoolPair.fromBuffer c
          (toLE 4 data.pollId ++ ([data.status] ++ (toLE 8 data.commission ++ sb)) ++ rest)
          network =
        some (⟨numberToString data.pollId, data.status, data.commission, data.ownerAddress⟩,
          rest) := by
  have h64 : data.commission < 2 ^ 64 := lt_trans hcomm (by norm_num)
  constructor
  · simp only [UpdatePoolPair.toBuffer, writeHeader, write, lookup_updatePoolPair,
      newBuffer_signature, newBuffer_u, writeUInt32LE, writeUInt8, BN.fromNumber,
      writeUInt64LEBN, writeCScript, henc, hpoll, hstatus, hcomm, h64, if_true,
      Option.bind_eq_bind, Option.some_bind, Option.pure_def, Option.map_some',
      List.nil_append, List.append_assoc, List.cons_append, List.singleton_append]
  · simp only [UpdatePoolPair.fromBuffer, List.append_assoc, List.cons_append, List.nil_append,
      List.singleton_append, readUInt32LE_toLE _ _ hpoll, readUInt8_cons,
      readUInt64LENum_toLE _ _ hcomm, hdec, Option.bind_eq_bind, Option.some_bind,
      Option.pure_def]

end

/-- Witness for C18: the record `{pollId: 5, status: 1, commission: 7,
ownerAddress: [9]}` with length-framed scripts. -/
theorem UpdatePoolPair_layout_witness :
    ((5 : Nat) < 2 ^ 32 ∧ (1 : Nat) < 256 ∧ (7 : Nat) < 2 ^ 53 ∧
      lpCodecs.scriptBytes (some [9]) = some [1, 9] ∧
      ∀ tail, lpCodecs.scriptFromBuffer ([1, 9] ++ tail) none = some ([9], tail)) ∧
    UpdatePoolPair.toBuffer lpCodecs ⟨5, 1, 7, [9]⟩ =
        some ([0x44, 0x66, 0x54, 0x78, 0x75] ++
          (toLE 4 5 ++ ([1] ++ (toLE 8 7 ++ [1, 9])))) ∧
      UpdatePoolPair.fromBuffer lpCodecs
          (toLE 4 5 ++ ([1] ++ (toLE 8 7 ++ [1, 9])) ++ [4]) none =
        some (⟨numberToString 5, 1, 7, [9]⟩, [4]) :=
  ⟨⟨by decide, by decide, by decide, by decide,
      fun tail => by simp [lpCodecs, readVarintNum, read]⟩,
    UpdatePoolPair_layout lpCodecs ⟨5, 1, 7, [9]⟩ none [1, 9] [4] (by decide) (by decide)
      (by decide) (by decide) (fun tail => by simp [lpCodecs, readVarintNum, read])⟩

/-! ## C19: the entry functions and the network -/

section
variable {S B A N : Type}

/-- What the plain call does with a reader: it decodes without the network. -/
theorem CreatePoolPair_call_reader (c : SubCodecs S B A N) (br : Bytes) (network : Option N) :
    CreatePoolPair.call c (Arg.reader br) network =
      (CreatePoolPair.fromBuffer c br none).map (fun p => Outcome.decoded p.1 p.2) := rfl

end

/-- C19 at the failing input: a reader over the CreatePoolPair payload
`01 02 | 40 78 7d 01 00 00 00 00 | 01 07 | 03` and network 1, with a script
model that records the network. `new CreatePoolPair(r, 1)` and
`CreatePoolPair.fromBuffer(r, 1)` return the owner script interpreted under
network 1; the plain call `CreatePoolPair(r, 1)` returns it interpreted under
no network, because line 233 is `return new CreatePoolPair(arg)`. The same
holds for `AccountToUtxos` (line 478) and `AnyAccountsToAccounts` (line 548). -/
theorem entry_function_drops_network :
    CreatePoolPair.fromBuffer netCodecs [1, 2, 64, 120, 125, 1, 0, 0, 0, 0, 1, 7, 3] (some 1) =
        some (⟨1, 2, 1 / 4, ([7], some 1), 3⟩, []) ∧
      CreatePoolPair.construct netCodecs
          (Arg.reader [1, 2, 64, 120, 125, 1, 0, 0, 0, 0, 1, 7, 3]) (some 1) =
        some (Outcome.decoded ⟨1, 2, 1 / 4, ([7], some 1), 3⟩ []) ∧
      CreatePoolPair.call netCodecs
          (Arg.reader [1, 2, 64, 120, 125, 1, 0, 0, 0, 0, 1, 7, 3]) (some 1) =
        some (Outcome.decoded ⟨1, 2, 1 / 4, ([7], none), 3⟩ []) ∧
      AccountToUtxos.construct netCodecs (Arg.reader [1, 7, 1, 5, 0]) (some 1) =
        some (Outcome.decoded ⟨([7], some 1), [5], 0⟩ []) ∧
      AccountToUtxos.call netCodecs (Arg.reader [1, 7, 1, 5, 0]) (some 1) =
        some (Outcome.decoded ⟨([7], none), [5], 0⟩ []) ∧
      AnyAccountsToAccounts.construct netCodecs (Arg.reader [1, 7, 1, 8]) (some 1) =
        some (Outcome.decoded ⟨([7], some 1), ([8], some 1)⟩ []) ∧
      AnyAccountsToAccounts.call netCodecs (Arg.reader [1, 7, 1, 8]) (some 1) =
        some (Outcome.decoded ⟨([7], none), ([8], none)⟩ []) := by
  refine ⟨by decide!, by decide!, by decide!, by decide, by decide, by decide, by decide⟩

/-! ## C20: the network inside one decode call -/

/-- C20 at the failing input: readers over a PoolSwap payload and over an
AddPoolLiquidity payload, network 1, with a script model that records the
network. `PoolSwap.fromBuffer(r, 1)` returns `to` interpreted under network 1
but `from` interpreted under no network (line 313 is
`CScript.fromBuffer(br)`); `AddPoolLiquidity.fromBuffer(r, 1)` returns
`shareAddress` interpreted under network 1 but the keys of `from` interpreted
under no network (line 357). -/
theorem decode_ignores_network_for_from :
    PoolSwap.fromBuffer netCodecs
        ([1, 7, 1, 0, 0, 0, 0, 0, 0, 0, 0, 1, 8] ++
          [2, 0, 0, 0, 0, 0, 0, 0, 0, 0, 0, 0, 0, 0, 0, 0, 0]) (some 1) =
        some (⟨([7], none), 1, 0, ([8], some 1), 2, ⟨0, 0⟩⟩, []) ∧
      AddPoolLiquidity.fromBuffer netCodecs netKey [1, 1, 7, 1, 5, 1, 8] (some 1) =
        some (⟨[("07", [5])], ([8], some 1)⟩, []) ∧
      netKey ([7], some 1) = "07@1" := by
  refine ⟨by decide!, by decide, by decide⟩

end CustomTx
